import Mathlib

/-!
Verification of the EFA RDM provider core against its natural-language
specification.  The definitions below are a shallow embedding of the address
vector (AV), packet and progress machinery found in the sources; theorems
settle the frozen claims about them.
-/

set_option autoImplicit false

namespace EfaSpec

/-! Error codes and sentinels.  These numeric values come from the public
libfabric headers (fi_errno.h, fabric.h), which are not under src. -/

/-- Modelled from the spec: FI error codes mirror errno values; the libfabric
header defining them is not under src. -/
def FI_EAGAIN : Int := 11

def FI_ENOMEM : Int := 12

def FI_EBUSY : Int := 16

def FI_EINVAL : Int := 22

def FI_ENOSYS : Int := 38

def FI_EADDRNOTAVAIL : Int := 99

def FI_ECANCELED : Int := 125

def FI_ENOEQ : Int := 261

/-- Modelled from the spec: FI_ADDR_NOTAVAIL is the all-ones 64-bit value. -/
def FI_ADDR_NOTAVAIL : Nat := 2 ^ 64 - 1

/-- Modelled from the spec: FI_ADDR_UNSPEC equals the all-ones 64-bit value. -/
def FI_ADDR_UNSPEC : Nat := 2 ^ 64 - 1

/-- Modelled from the spec: the FI_MULTI_RECV completion flag bit. -/
def FI_MULTI_RECV : Nat := 2 ^ 16

/-! Association-list helpers.  The C sources keep their maps in uthash tables
and util buffer pools; we embed each map as a list of key-value pairs where
lookup, erase and update all act on the first matching key. -/

def alookup {α β : Type} [DecidableEq α] (k : α) : List (α × β) → Option β
  | [] => none
  | (k₀, v) :: rest => if k₀ = k then some v else alookup k rest

def aerase {α β : Type} [DecidableEq α] (k : α) : List (α × β) → List (α × β)
  | [] => []
  | (k₀, v) :: rest => if k₀ = k then rest else (k₀, v) :: aerase k rest

def aupdate {α β : Type} [DecidableEq α] (k : α) (f : β → β) : List (α × β) → List (α × β)
  | [] => []
  | (k₀, v) :: rest => if k₀ = k then (k₀, f v) :: rest else (k₀, v) :: aupdate k f rest

@[simp] theorem alookup_nil {α β : Type} [DecidableEq α] (k : α) :
    alookup (β := β) k [] = none := rfl

@[simp] theorem alookup_cons {α β : Type} [DecidableEq α] (k k₀ : α) (v : β)
    (rest : List (α × β)) :
    alookup k ((k₀, v) :: rest) = if k₀ = k then some v else alookup k rest := rfl

@[simp] theorem aerase_nil {α β : Type} [DecidableEq α] (k : α) :
    aerase (β := β) k [] = [] := rfl

@[simp] theorem aerase_cons {α β : Type} [DecidableEq α] (k k₀ : α) (v : β)
    (rest : List (α × β)) :
    aerase k ((k₀, v) :: rest) = if k₀ = k then rest else (k₀, v) :: aerase k rest := rfl

theorem alookup_append_left {α β : Type} [DecidableEq α] (k : α)
    (l₁ l₂ : List (α × β)) (v : β) (h : alookup k l₁ = some v) :
    alookup k (l₁ ++ l₂) = some v := by
  induction l₁ with
  | nil => simp [alookup] at h
  | cons hd tl ih =>
    obtain ⟨k₀, v₀⟩ := hd
    by_cases hk : k₀ = k
    · simp [alookup, hk] at h ⊢; exact h
    · simp [alookup, hk] at h ⊢; exact ih h

theorem alookup_append_right {α β : Type} [DecidableEq α] (k : α)
    (l₁ l₂ : List (α × β)) (h : alookup k l₁ = none) :
    alookup k (l₁ ++ l₂) = alookup k l₂ := by
  induction l₁ with
  | nil => simp
  | cons hd tl ih =>
    obtain ⟨k₀, v₀⟩ := hd
    by_cases hk : k₀ = k
    · simp [alookup, hk] at h
    · simp [alookup, hk] at h ⊢; exact ih h

theorem alookup_aerase_ne {α β : Type} [DecidableEq α] (k j : α)
    (l : List (α × β)) (h : j ≠ k) :
    alookup j (aerase k l) = alookup j l := by
  induction l with
  | nil => simp
  | cons hd tl ih =>
    obtain ⟨k₀, v₀⟩ := hd
    by_cases hk : k₀ = k
    · subst hk
      have hj : ¬ k₀ = j := fun he => h he.symm
      rw [aerase_cons, if_pos rfl, alookup_cons, if_neg hj]
    · by_cases hj : k₀ = j
      · rw [aerase_cons, if_neg hk, alookup_cons, if_pos hj, alookup_cons, if_pos hj]
      · rw [aerase_cons, if_neg hk, alookup_cons, if_neg hj, alookup_cons, if_neg hj, ih]

theorem alookup_eq_none_of_not_mem {α β : Type} [DecidableEq α] (k : α)
    (l : List (α × β)) (h : k ∉ l.map Prod.fst) : alookup k l = none := by
  induction l with
  | nil => rfl
  | cons hd tl ih =>
    obtain ⟨k₀, v₀⟩ := hd
    simp only [List.map_cons, List.mem_cons, not_or] at h
    have hne : ¬ k₀ = k := fun he => h.1 he.symm
    rw [alookup_cons, if_neg hne]
    exact ih h.2

theorem alookup_aerase_self {α β : Type} [DecidableEq α] (k : α)
    (l : List (α × β)) (hnd : (l.map Prod.fst).Nodup) :
    alookup k (aerase k l) = none := by
  induction l with
  | nil => simp
  | cons hd tl ih =>
    obtain ⟨k₀, v₀⟩ := hd
    simp only [List.map_cons, List.nodup_cons] at hnd
    by_cases hk : k₀ = k
    · subst hk
      simp only [aerase, if_pos rfl]
      exact alookup_eq_none_of_not_mem _ _ hnd.1
    · simp only [aerase, if_neg hk, alookup, if_neg hk]
      exact ih hnd.2

theorem alookup_mem {α β : Type} [DecidableEq α] (k : α) (v : β)
    (l : List (α × β)) (h : alookup k l = some v) : (k, v) ∈ l := by
  induction l with
  | nil => simp [alookup] at h
  | cons hd tl ih =>
    obtain ⟨k₀, v₀⟩ := hd
    by_cases hk : k₀ = k
    · subst hk
      simp [alookup] at h
      subst h
      exact List.mem_cons_self _ _
    · simp [alookup, hk] at h
      exact List.mem_cons_of_mem _ (ih h)

/-! Address-vector data model.  This embeds the util-av based efa_av
implementation: struct efa_ep_addr, the GID-keyed address-handle cache,
the efa_conn records held in the av entries, and the (AHN, QPN) reverse map. -/

/-- Raw EFA endpoint address (struct efa_ep_addr): 16-byte GID, queue pair
number and qkey, the random connection id.  Padding and reserved bytes carry
no information and are omitted. -/
structure EfaEpAddr where
  raw : List Nat
  qpn : Nat
  qkey : Nat
  deriving DecidableEq, Repr

/-- Embeds efa_av_is_valid_address: the GID must not be all zeros. -/
def efa_av_is_valid_address (addr : EfaEpAddr) : Bool :=
  addr.raw ≠ List.replicate 16 0

/-- Embeds efa_is_same_addr: same GID, QPN and qkey. -/
def efa_is_same_addr (lhs rhs : EfaEpAddr) : Bool :=
  lhs.raw = rhs.raw ∧ lhs.qpn = rhs.qpn ∧ lhs.qkey = rhs.qkey

/-- Address handle (struct efa_ah): reference counted, cached per AV keyed by
GID.  The AHN is assigned by the device when the handle is created. -/
structure EfaAh where
  gid : List Nat
  ahn : Nat
  used : Nat
  deriving DecidableEq, Repr

/-- Per-connection rdm peer state relevant to the AV claims.  The use count
tracks in-use tx and rx entries referencing the peer. -/
structure RdmPeer where
  efa_fiaddr : Nat := 0
  is_self : Bool := false
  is_local : Bool := false
  shm_fiaddr : Nat := 0
  prev_qkey : Nat := 0
  use_cnt : Nat := 0
  deriving DecidableEq, Repr

instance : Inhabited RdmPeer := ⟨{}⟩

/-- Embeds struct efa_conn.  The shared address handle the conn points at is
identified by its GID key; the queried AHN is cached in the conn as well. -/
structure EfaConn where
  ep_addr : EfaEpAddr
  fi_addr : Nat
  ah_gid : List Nat
  ahn : Nat
  rdm_peer : RdmPeer
  deriving DecidableEq, Repr

/-- Embeds struct efa_av (util-av layout): forward map from fi_addr to the
raw address (the util av), the conn records stored in the av entries, the
GID-keyed AH cache, the (AHN, QPN) reverse map and the shm address map.
Counters model the external allocators: fresh fi addresses from the util av
pool, fresh AHNs from the device, fresh shm addresses from the shm av. -/
structure EfaAv where
  entries : List (Nat × EfaEpAddr) := []
  conns : List (Nat × EfaConn) := []
  ah_map : List EfaAh := []
  reverse_av : List ((Nat × Nat) × Nat) := []
  shm_map : List (Nat × Nat) := []
  next_fi : Nat := 0
  next_ahn : Nat := 0
  next_shm : Nat := 0
  used : Nat := 0
  shm_used : Nat := 0
  deriving DecidableEq, Repr

/-- Configuration of the single rxr endpoint bound to the AV: its own raw
address, whether shm transfer is enabled, the GIDs considered local, and the
shm AV capacity from the environment. -/
structure RxrEpCfg where
  core_addr : EfaEpAddr
  use_shm : Bool := false
  local_gids : List (List Nat) := []
  shm_av_size : Nat := 128
  deriving DecidableEq, Repr

/-- Embeds efa_is_local_peer: compare the peer GID against the stored local
GIDs. -/
def efa_is_local_peer (cfg : RxrEpCfg) (addr : EfaEpAddr) : Bool :=
  cfg.local_gids.contains addr.raw

def ahFind (gid : List Nat) : List EfaAh → Option EfaAh
  | [] => none
  | ah :: rest => if ah.gid = gid then some ah else ahFind gid rest

def ahBump (gid : List Nat) : List EfaAh → List EfaAh
  | [] => []
  | ah :: rest =>
    if ah.gid = gid then { ah with used := ah.used + 1 } :: rest
    else ah :: ahBump gid rest

def ahDrop (gid : List Nat) : List EfaAh → List EfaAh
  | [] => []
  | ah :: rest =>
    if ah.gid = gid then
      if ah.used - 1 = 0 then rest else { ah with used := ah.used - 1 } :: rest
    else ah :: ahDrop gid rest

/-- Embeds efa_ah_alloc: reuse the cached AH for the GID, bumping its use
count, or create a new one (the device assigns a fresh AHN) with use count 1
and add it to the cache. -/
def efa_ah_alloc (av : EfaAv) (gid : List Nat) : EfaAv × EfaAh :=
  match ahFind gid av.ah_map with
  | some ah =>
    ({ av with ah_map := ahBump gid av.ah_map }, { ah with used := ah.used + 1 })
  | none =>
    let ah : EfaAh := { gid := gid, ahn := av.next_ahn, used := 1 }
    ({ av with ah_map := av.ah_map ++ [ah], next_ahn := av.next_ahn + 1 }, ah)

/-- Embeds efa_ah_release: decrement the use count; when it reaches zero the
handle is removed from the cache and destroyed. -/
def efa_ah_release (av : EfaAv) (gid : List Nat) : EfaAv :=
  { av with ah_map := ahDrop gid av.ah_map }

/-- Embeds efa_rdm_peer_init: zero the peer, record the conn fi_addr and the
self-detection result. -/
def efa_rdm_peer_init (cfg : RxrEpCfg) (conn : EfaConn) : RdmPeer :=
  { efa_fiaddr := conn.fi_addr
    is_self := efa_is_same_addr cfg.core_addr conn.ep_addr }

/-- Embeds efa_conn_rdm_init: set up the rdm peer and, for a local peer with
shm enabled, insert the address into the shm av (capacity permitting) and
record the shm mapping.  Returns none on failure. -/
def efa_conn_rdm_init (av : EfaAv) (cfg : RxrEpCfg) (conn : EfaConn) :
    Option (EfaAv × RdmPeer) :=
  let peer := efa_rdm_peer_init cfg conn
  if cfg.use_shm && efa_is_local_peer cfg conn.ep_addr then
    if cfg.shm_av_size ≤ av.shm_used then none
    else
      let shm_fi := av.next_shm
      some ({ av with
                shm_used := av.shm_used + 1
                next_shm := av.next_shm + 1
                shm_map := av.shm_map ++ [(shm_fi, conn.fi_addr)] },
            { peer with is_local := true, shm_fiaddr := shm_fi })
  else
    some (av, peer)

/-- Embeds efa_conn_rdm_deinit: release the shm av entry of a local peer and
clear the peer. -/
def efa_conn_rdm_deinit (av : EfaAv) (conn : EfaConn) : EfaAv :=
  if conn.rdm_peer.is_local then
    { av with
        shm_map := aerase conn.rdm_peer.shm_fiaddr av.shm_map
        shm_used := av.shm_used - 1 }
  else av

/-- Embeds efa_conn_release: deinit the rdm resources, delete the reverse-map
entry for the conn, release the address handle and remove the av entry. -/
def efa_conn_release (av : EfaAv) (conn : EfaConn) : EfaAv :=
  let av1 := efa_conn_rdm_deinit av conn
  let key := (conn.ahn, conn.ep_addr.qpn)
  let av2 := { av1 with reverse_av := aerase key av1.reverse_av }
  let av3 := efa_ah_release av2 conn.ah_gid
  { av3 with
      entries := aerase conn.fi_addr av3.entries
      conns := aerase conn.fi_addr av3.conns
      used := av3.used - 1 }

/-- Order-of-effects events recorded while an insert runs, in source order. -/
inductive AvEvent where
  | forwardInserted (fi : Nat)
  | ahAllocated (ahn : Nat)
  | peerWired (fi : Nat)
  | releasedPrev (fi : Nat)
  | reverseInserted (ahn qpn fi : Nat)
  deriving DecidableEq, Repr

/-- Embeds efa_conn_alloc: validate the address, insert it into the util av
(the forward map), allocate or reuse the AH, initialize the rdm peer, release
a stale prior peer found under the same (AHN, QPN) reverse key, then install
the reverse-map entry for the new conn.  The FI_SYNC_ERR context zeroing has
no observable AV state and is omitted.  The returned event list records the
effects in source order. -/
def efa_conn_alloc (av : EfaAv) (cfg : RxrEpCfg) (raw_addr : EfaEpAddr) :
    EfaAv × Option EfaConn × List AvEvent :=
  if ¬ efa_av_is_valid_address raw_addr then (av, none, [])
  else
    let fi := av.next_fi
    let av1 := { av with entries := av.entries ++ [(fi, raw_addr)], next_fi := fi + 1 }
    let ev1 := [AvEvent.forwardInserted fi]
    let (av2, ah) := efa_ah_alloc av1 raw_addr.raw
    let conn1 : EfaConn :=
      { ep_addr := raw_addr, fi_addr := fi, ah_gid := raw_addr.raw
        ahn := ah.ahn, rdm_peer := default }
    let ev2 := ev1 ++ [AvEvent.ahAllocated ah.ahn]
    match efa_conn_rdm_init av2 cfg conn1 with
    | none =>
      let av3 := efa_ah_release av2 raw_addr.raw
      ({ av3 with entries := aerase fi av3.entries }, none, ev2)
    | some (av3, peer) =>
      let ev3 := ev2 ++ [AvEvent.peerWired fi]
      let key := (ah.ahn, raw_addr.qpn)
      let (av4, peer1, ev4) :=
        match alookup key av3.reverse_av with
        | some prevFi =>
          match alookup prevFi av3.conns with
          | some prevConn =>
            (efa_conn_release av3 prevConn,
             { peer with prev_qkey := prevConn.ep_addr.qkey },
             ev3 ++ [AvEvent.releasedPrev prevFi])
          | none => (av3, peer, ev3)
        | none => (av3, peer, ev3)
      let conn2 := { conn1 with rdm_peer := peer1 }
      ({ av4 with
           conns := av4.conns ++ [(fi, conn2)]
           reverse_av := av4.reverse_av ++ [(key, fi)]
           used := av4.used + 1 },
       some conn2,
       ev4 ++ [AvEvent.reverseInserted ah.ahn raw_addr.qpn fi])

/-- Embeds efa_av_addr_to_conn (FI_AV_TABLE): fi_addr indexes the av entry
holding the conn; FI_ADDR_UNSPEC yields no conn. -/
def efa_av_addr_to_conn (av : EfaAv) (fi_addr : Nat) : Option EfaConn :=
  if fi_addr = FI_ADDR_UNSPEC then none
  else alookup fi_addr av.conns

/-- Embeds efa_ahn_qpn_to_addr: reverse lookup by (AHN, QPN); a hit yields
the fi_addr of the bound conn, a miss yields FI_ADDR_NOTAVAIL. -/
def efa_ahn_qpn_to_addr (av : EfaAv) (ahn qpn : Nat) : Nat :=
  match alookup (ahn, qpn) av.reverse_av with
  | some fi => fi
  | none => FI_ADDR_NOTAVAIL

/-- Embeds efa_ahn_qpn_to_peer: reverse lookup by (AHN, QPN); a hit yields
the rdm peer of the bound conn, a miss yields none. -/
def efa_ahn_qpn_to_peer (av : EfaAv) (ahn qpn : Nat) : Option RdmPeer :=
  match alookup (ahn, qpn) av.reverse_av with
  | some fi => (alookup fi av.conns).map (fun c => c.rdm_peer)
  | none => none

/-- Modelled from the spec: ofi_av_lookup_fi_addr_unsafe lives in the util av
code, which is not under src; it finds the fi_addr whose stored address is
byte-identical to the query, or FI_ADDR_NOTAVAIL. -/
def ofi_av_lookup_fi_addr_unsafe (av : EfaAv) (addr : EfaEpAddr) : Nat :=
  match av.entries.find? (fun e => e.2 = addr) with
  | some e => e.1
  | none => FI_ADDR_NOTAVAIL

/-- Result of inserting one address: the new AV state, the output fi address,
the return code and the recorded effect events. -/
structure InsertOneResult where
  av : EfaAv
  fi_addr : Nat
  ret : Int
  events : List AvEvent
  deriving DecidableEq, Repr

/-- Embeds efa_av_insert_one: if the address is already present return its
existing fi_addr unchanged, otherwise allocate a conn.  The inet_ntop logging
conversion cannot fail in the model and is omitted. -/
def efa_av_insert_one (av : EfaAv) (cfg : RxrEpCfg) (addr : EfaEpAddr) :
    InsertOneResult :=
  let efa_fiaddr := ofi_av_lookup_fi_addr_unsafe av addr
  if efa_fiaddr ≠ FI_ADDR_NOTAVAIL then
    ⟨av, efa_fiaddr, 0, []⟩
  else
    match efa_conn_alloc av cfg addr with
    | (av1, none, evs) => ⟨av1, FI_ADDR_NOTAVAIL, -FI_EADDRNOTAVAIL, evs⟩
    | (av1, some conn, evs) => ⟨av1, conn.fi_addr, 0, evs⟩

/-- Flags passed to fi_av_insert, split into the bits the code inspects. -/
structure InsertFlags where
  more : Bool := false
  sync_err : Bool := false
  event : Bool := false
  other : Bool := false
  deriving DecidableEq, Repr

/-- Result of a batched insert: the return value (success count or negative
error), the output fi_addr array and the new AV state. -/
structure InsertResult where
  ret : Int
  fi_addrs : List Nat
  av : EfaAv
  deriving DecidableEq, Repr

/-- Embeds the insertion loop of efa_av_insert: insert addresses in order,
stopping at the first failure; returns the success count, the fi addresses
written so far, the final state and the status of the last attempted
insert. -/
def insertLoop (av : EfaAv) (cfg : RxrEpCfg) :
    List EfaEpAddr → Nat × List Nat × EfaAv × Int
  | [] => (0, [], av, 0)
  | addr :: rest =>
    let r := efa_av_insert_one av cfg addr
    if r.ret ≠ 0 then (0, [], r.av, r.ret)
    else
      let t := insertLoop r.av cfg rest
      (t.1 + 1, r.fi_addr :: t.2.1, t.2.2.1, t.2.2.2)

/-- Embeds efa_av_insert: reject FI_EVENT AVs, malformed FI_SYNC_ERR usage
and unsupported flags, then run the insertion loop; remaining output slots
are set to FI_ADDR_NOTAVAIL and the success count is returned. -/
def efa_av_insert (av : EfaAv) (cfg : RxrEpCfg) (avHasEventFlag : Bool)
    (flags : InsertFlags) (hasContext : Bool) (addrs : List EfaEpAddr) :
    InsertResult :=
  if avHasEventFlag then ⟨-FI_ENOEQ, [], av⟩
  else if flags.sync_err && (!hasContext || flags.event) then ⟨-FI_EINVAL, [], av⟩
  else
    let flags1 := { flags with more := false }
    if flags1.sync_err || flags1.event || flags1.other then ⟨-FI_ENOSYS, [], av⟩
    else
      let t := insertLoop av cfg addrs
      ⟨Int.ofNat t.1,
       t.2.1 ++ List.replicate (addrs.length - t.1) FI_ADDR_NOTAVAIL,
       t.2.2.1⟩

/-- Modelled from the spec: efa_peer_in_use is declared but not defined under
src; per the spec, a peer is in use while any in-use tx or rx entry still
references it, tracked by a positive use count. -/
def efa_peer_in_use (peer : RdmPeer) : Bool :=
  0 < peer.use_cnt

/-- Embeds the removal loop of efa_av_remove (RDM endpoint): look up each
conn, fail with EINVAL when absent, fail with EBUSY while the peer is in use,
otherwise release the conn. -/
def removeLoop (av : EfaAv) : List Nat → Int × EfaAv
  | [] => (0, av)
  | fi :: rest =>
    match efa_av_addr_to_conn av fi with
    | none => (-FI_EINVAL, av)
    | some conn =>
      if efa_peer_in_use conn.rdm_peer then (-FI_EBUSY, av)
      else removeLoop (efa_conn_release av conn) rest

/-- Embeds efa_av_remove for an RDM endpoint AV (the event-queue write-back
applies only when an event queue is bound, which the RDM AV rejects). -/
def efa_av_remove (av : EfaAv) (fi_addrs : List Nat) : Int × EfaAv :=
  removeLoop av fi_addrs

/-! Packet codec: the base header and the connid-header accessor.  Packet
type ids follow table 1.2 of the protocol document in the repository. -/

def RXR_CTS_PKT : Nat := 3

def RXR_DATA_PKT : Nat := 4

def RXR_READRSP_PKT : Nat := 5

def RXR_EOR_PKT : Nat := 7

def RXR_HANDSHAKE_PKT : Nat := 9

def RXR_RECEIPT_PKT : Nat := 10

def RXR_REQ_PKT_BEGIN : Nat := 64

/-- Modelled from the spec: the connid flag-bit constants are defined in
rxr.h, which is not under src; the spec places each OPT_CONNID_HDR bit at the
0x40 position of the 16-bit flags field. -/
def RXR_REQ_OPT_CONNID_HDR : Nat := 0x40

/-- Modelled from the spec: CTS connid flag bit, 0x40 position. -/
def RXR_CTS_OPT_CONNID_HDR : Nat := 0x40

/-- Modelled from the spec: RECEIPT connid flag bit, 0x40 position. -/
def RXR_RECEIPT_OPT_CONNID_HDR : Nat := 0x40

/-- Modelled from the spec: DATA connid flag bit, 0x40 position. -/
def RXR_DATA_OPT_CONNID_HDR : Nat := 0x40

/-- Modelled from the spec: HANDSHAKE connid flag bit, 0x40 position. -/
def RXR_HANDSHAKE_OPT_CONNID_HDR : Nat := 0x40

/-- Modelled from the spec: READRSP connid flag bit, 0x40 position. -/
def RXR_READRSP_OPT_CONNID_HDR : Nat := 0x40

/-- Modelled from the spec: EOR connid flag bit, 0x40 position. -/
def RXR_EOR_OPT_CONNID_HDR : Nat := 0x40

/-- The 4-byte base header every packet starts with. -/
structure RxrBaseHdr where
  type : Nat
  version : Nat
  flags : Nat
  deriving DecidableEq, Repr

/-- Shallow model of a received packet entry: the base header plus the value
held in the (type-specific) connid slot of the wire image. -/
structure RxrPkt where
  base : RxrBaseHdr
  connid : Nat
  deriving DecidableEq, Repr

/-- Modelled from the spec: rxr_pkt_req_connid_hdr (the REQ-packet optional
header walk) is not under src; the REQ connid optional header is present when
flag 0x40 is set. -/
def rxr_pkt_req_connid_hdr (pkt : RxrPkt) : Option Nat :=
  if pkt.base.flags &&& RXR_REQ_OPT_CONNID_HDR ≠ 0 then some pkt.connid else none

/-- Embeds rxr_pkt_connid_hdr (rxr_pkt_type_base.c): REQ packets delegate to
the REQ optional-header walk; CTS, RECEIPT, DATA and HANDSHAKE return their
embedded connid when the type-specific flag bit is set; every other type
falls through to none. -/
def rxr_pkt_connid_hdr (pkt : RxrPkt) : Option Nat :=
  if RXR_REQ_PKT_BEGIN ≤ pkt.base.type then rxr_pkt_req_connid_hdr pkt
  else if pkt.base.type = RXR_CTS_PKT then
    if pkt.base.flags &&& RXR_CTS_OPT_CONNID_HDR ≠ 0 then some pkt.connid else none
  else if pkt.base.type = RXR_RECEIPT_PKT then
    if pkt.base.flags &&& RXR_RECEIPT_OPT_CONNID_HDR ≠ 0 then some pkt.connid else none
  else if pkt.base.type = RXR_DATA_PKT then
    if pkt.base.flags &&& RXR_DATA_OPT_CONNID_HDR ≠ 0 then some pkt.connid else none
  else if pkt.base.type = RXR_HANDSHAKE_PKT then
    if pkt.base.flags &&& RXR_HANDSHAKE_OPT_CONNID_HDR ≠ 0 then some pkt.connid else none
  else none

/-! Outstanding-tx and credit accounting.  The state carries the endpoint
counter, the per-peer counters and the environment limits; the actions are
the counter-relevant operations of the send path. -/

/-- Per-peer counters and flags used by the send path. -/
structure PeerCnt where
  tx_pending : Int := 0
  tx_credits : Int := 0
  tx_init : Bool := false
  in_backoff : Bool := false
  is_local : Bool := false
  deriving DecidableEq, Repr

/-- Endpoint counter state: the outstanding-tx counter, the cap, the peers
and the environment constants feeding the credit computation. -/
structure EpCnt where
  tx_pending : Int := 0
  max_outstanding_tx : Int := 0
  max_data_payload_size : Nat := 1
  tx_min_credits : Nat := 0
  tx_max_credits : Nat := 0
  peers : List (Nat × PeerCnt) := []
  deriving DecidableEq, Repr

/-- Modelled from the spec: rxr_ep_inc_tx_pending is declared but not defined
under src; the outstanding-tx counter is incremented on each successful post,
on the endpoint and on the addressed peer. -/
def rxr_ep_inc_tx_pending (ep : EpCnt) (addr : Nat) : EpCnt :=
  { ep with
      tx_pending := ep.tx_pending + 1
      peers := aupdate addr (fun p => { p with tx_pending := p.tx_pending + 1 }) ep.peers }

/-- Modelled from the spec: rxr_ep_dec_tx_pending is not under src; the
outstanding-tx counter is decremented when a send completion arrives. -/
def rxr_ep_dec_tx_pending (ep : EpCnt) (addr : Nat) : EpCnt :=
  { ep with
      tx_pending := ep.tx_pending - 1
      peers := aupdate addr (fun p => { p with tx_pending := p.tx_pending - 1 }) ep.peers }

/-- Embeds rxr_pkt_entry_sendmsg: refuse with EAGAIN when the outstanding-tx
counter has reached the cap or the peer is in RNR backoff; a local peer posts
through shm without touching the counter; otherwise post through the device
and increment the counter on success.  The lower provider send result is a
parameter. -/
def rxr_pkt_entry_sendmsg (ep : EpCnt) (addr : Nat) (lowerRet : Int) : EpCnt × Int :=
  if ep.tx_pending = ep.max_outstanding_tx then (ep, -FI_EAGAIN)
  else
    match alookup addr ep.peers with
    | none => (ep, -FI_EINVAL)
    | some peer =>
      if peer.in_backoff then (ep, -FI_EAGAIN)
      else if peer.is_local then (ep, lowerRet)
      else if lowerRet = 0 then (rxr_ep_inc_tx_pending ep addr, 0)
      else (ep, lowerRet)

/-- Embeds ofi_div_ceil from the util headers. -/
def ofi_div_ceil (a b : Int) : Int := (a + b - 1) / b

/-- Modelled from the spec: rxr_ep_peer_init_tx is not under src; it marks
the peer tx state initialized and grants it the configured credit budget. -/
def rxr_ep_peer_init_tx (ep : EpCnt) (p : PeerCnt) : PeerCnt :=
  { p with tx_init := true, tx_credits := Int.ofNat ep.tx_max_credits }

/-- Peer-local part of rxr_ep_set_tx_credit_request: initialize the peer tx
state on first use, divide the available credits among outstanding
transfers, clamp from below by the environment minimum, and deduct the
request from the peer credits only when enough are available.  Returns the
updated peer and the credit request. -/
def creditUpdatedPeer (ep : EpCnt) (total_len : Nat) (p₀ : PeerCnt) :
    PeerCnt × Int :=
  let p := if p₀.tx_init then p₀ else rxr_ep_peer_init_tx ep p₀
  let pending := p.tx_pending + 1
  let req0 := min (ofi_div_ceil p.tx_credits pending)
                  (ofi_div_ceil (Int.ofNat total_len) (Int.ofNat ep.max_data_payload_size))
  let req := max req0 (Int.ofNat ep.tx_min_credits)
  (if req ≤ p.tx_credits then { p with tx_credits := p.tx_credits - req } else p, req)

/-- Embeds rxr_ep_set_tx_credit_request: look the peer up, update it through
the credit computation and store it back; EAGAIN when no credit could be
requested. -/
def rxr_ep_set_tx_credit_request (ep : EpCnt) (addr : Nat) (total_len : Nat) :
    EpCnt × Int :=
  match alookup addr ep.peers with
  | none => (ep, -FI_EINVAL)
  | some p₀ =>
    let pr := creditUpdatedPeer ep total_len p₀
    ({ ep with peers := aupdate addr (fun _ => pr.1) ep.peers },
     if pr.2 = 0 then -FI_EAGAIN else 0)

/-- Counter-relevant actions of a run: posting a packet (with the lower
provider result), observing a send completion, computing a credit request,
and a CTS granting credits back. -/
inductive TxAction where
  | post (addr : Nat) (lowerRet : Int)
  | complete (addr : Nat)
  | creditRequest (addr : Nat) (total_len : Nat)
  | grant (addr : Nat) (k : Nat)
  deriving DecidableEq, Repr

def txStep (ep : EpCnt) : TxAction → EpCnt
  | .post addr r => (rxr_pkt_entry_sendmsg ep addr r).1
  | .complete addr => rxr_ep_dec_tx_pending ep addr
  | .creditRequest addr len => (rxr_ep_set_tx_credit_request ep addr len).1
  | .grant addr k =>
    let f := fun (p : PeerCnt) => { p with tx_credits := p.tx_credits + Int.ofNat k }
    { ep with peers := aupdate addr f ep.peers }

def txRun (ep : EpCnt) : List TxAction → EpCnt
  | [] => ep
  | a :: rest => txRun (txStep ep a) rest

/-- Admissibility of a single action: a completion is only delivered for a
peer that has an outstanding post (the transport reports completions only
for posted sends); every other action is always admissible. -/
def txActionOk (ep : EpCnt) : TxAction → Bool
  | .complete addr =>
    match alookup addr ep.peers with
    | some p => decide (0 < p.tx_pending)
    | none => false
  | _ => true

/-- Admissible action lists: every completion in the list is delivered while
its peer has an outstanding post. -/
def txAdmissible (ep : EpCnt) : List TxAction → Bool
  | [] => true
  | a :: rest => txActionOk ep a && txAdmissible (txStep ep a) rest

def peersSum : List (Nat × PeerCnt) → Int
  | [] => 0
  | q :: tl => q.2.tx_pending + peersSum tl

/-- Counter invariant: the endpoint counter equals the sum of the per-peer
counters, every peer counter and credit balance is nonnegative, and the
endpoint counter respects the outstanding-tx cap. -/
def TxInv (ep : EpCnt) : Prop :=
  ep.tx_pending = peersSum ep.peers ∧
  (∀ q ∈ ep.peers, 0 ≤ q.2.tx_pending ∧ 0 ≤ q.2.tx_credits) ∧
  ep.tx_pending ≤ ep.max_outstanding_tx

/-! RNR backoff state and the tx packet-entry release path. -/

/-- Packet entry life-cycle states (enum rxr_pkt_entry_state). -/
inductive PktState where
  | free
  | in_use
  | rnr_retransmit
  | copy_by_read
  deriving DecidableEq, Repr

/-- The slice of a tx packet entry the release path inspects. -/
structure TxPkt where
  addr : Nat
  state : PktState
  deriving DecidableEq, Repr

/-- Per-peer RNR backoff state. -/
structure RnrPeer where
  in_backoff : Bool := false
  rnr_timeout : Nat := 0
  is_local : Bool := false
  deriving DecidableEq, Repr

/-- Endpoint state seen by the tx release path: the peers by address. -/
structure EpRnr where
  peers : List (Nat × RnrPeer) := []
  deriving DecidableEq, Repr

/-- Embeds rxr_pkt_entry_release_tx: when the released packet was in RNR
retransmit state, zero the rnr timeout of its peer and clear the backoff
flag; then free the packet entry. -/
def rxr_pkt_entry_release_tx (ep : EpRnr) (pkt : TxPkt) : EpRnr × TxPkt :=
  let reset := fun (p : RnrPeer) => { p with rnr_timeout := 0, in_backoff := false }
  let ep1 :=
    if pkt.state = PktState.rnr_retransmit then
      { ep with peers := aupdate pkt.addr reset ep.peers }
    else ep
  (ep1, { pkt with state := PktState.free })

/-! Receive cancellation and the data-sink path. -/

/-- RX entry life-cycle states. -/
inductive RxState where
  | init
  | unexp
  | matched
  | recv
  | queued_ctrl
  | free
  deriving DecidableEq, Repr

/-- The completion-queue fields of an rx entry. -/
structure RxCq where
  op_context : Nat
  flags : Nat
  len : Nat
  deriving DecidableEq, Repr

/-- Fields of a multi-recv consumer entry that the cancel path reads. -/
structure ConsumerInfo where
  cq : RxCq
  tag : Nat
  state : RxState
  deriving DecidableEq, Repr

/-- The slice of an rx entry the cancel and data-copy paths use.  The buffer
is the flattened application receive iov; desc_cuda records whether it is
registered on GPU memory. -/
structure RxEntry where
  rx_id : Nat := 0
  cq_entry : RxCq
  tag : Nat := 0
  fi_multi_recv : Bool := false
  multi_recv_posted : Bool := false
  multi_recv_consumer : Bool := false
  consumers : List ConsumerInfo := []
  recv_cancel : Bool := false
  state : RxState := RxState.matched
  buffer : List Nat := []
  bytes_copied : Nat := 0
  total_len : Nat := 0
  desc_cuda : Bool := false
  deriving DecidableEq, Repr

/-- An error completion entry as written for a cancelled receive. -/
structure CqErrEntry where
  op_context : Nat
  flags : Nat
  tag : Nat
  err : Int
  prov_errno : Int
  deriving DecidableEq, Repr

/-- Observable effects of the cancel path: an error completion written to
the cq, or the multi-recv sibling completion handling. -/
inductive CancelEvent where
  | errWritten (e : CqErrEntry)
  | multiRecvCompletion (ctx : Nat)
  deriving DecidableEq, Repr

/-- Embeds dlist_remove_first_match with rxr_ep_cancel_match_recv: find and
remove the first entry whose posted context equals the query. -/
def removeFirstMatch (ctx : Nat) : List RxEntry → Option (RxEntry × List RxEntry)
  | [] => none
  | e :: rest =>
    if e.cq_entry.op_context = ctx then some (e, rest)
    else
      match removeFirstMatch ctx rest with
      | none => none
      | some (e', rest') => some (e', e :: rest')

/-- Release condition of the cancel path: entries still in INIT, UNEXP or
MATCHED state are released immediately. -/
def cancelReleases (s : RxState) : Bool :=
  s = RxState.init ∨ s = RxState.unexp ∨ s = RxState.matched

/-- Result of cancelling a receive: the remaining list, the cancelled entry
after flagging, whether the err-target entry was released, the effect events
and the return value. -/
structure CancelResult where
  remaining : List RxEntry
  cancelled : Option RxEntry
  released : Bool
  events : List CancelEvent
  ret : Int
  deriving DecidableEq, Repr

/-- Embeds rxr_ep_cancel_recv: remove the first context match from the recv
list, flag it RECV_CANCEL, run the multi-recv handling (which may redirect
the error completion to the first pending consumer), then write exactly one
FI_ECANCELED error completion.  The multi-recv sibling completion handler is
not under src and is recorded as an event, modelled from the spec. -/
def rxr_ep_cancel_recv (recv_list : List RxEntry) (ctx : Nat) : CancelResult :=
  match removeFirstMatch ctx recv_list with
  | none => ⟨recv_list, none, false, [], 0⟩
  | some (e, rest) =>
    let e1 := { e with recv_cancel := true }
    if e1.fi_multi_recv && e1.multi_recv_posted then
      match e1.consumers with
      | [] =>
        let e2 := { e1 with cq_entry :=
          { e1.cq_entry with flags := e1.cq_entry.flags ||| FI_MULTI_RECV } }
        let err : CqErrEntry :=
          ⟨e2.cq_entry.op_context, e2.cq_entry.flags, e2.tag, FI_ECANCELED, -FI_ECANCELED⟩
        ⟨rest, some e2, cancelReleases e2.state, [CancelEvent.errWritten err], 0⟩
      | c :: _ =>
        let err : CqErrEntry :=
          ⟨c.cq.op_context, c.cq.flags, c.tag, FI_ECANCELED, -FI_ECANCELED⟩
        ⟨rest, some e1, cancelReleases c.state,
         [CancelEvent.multiRecvCompletion c.cq.op_context, CancelEvent.errWritten err], 0⟩
    else if e1.fi_multi_recv && e1.multi_recv_consumer then
      let err : CqErrEntry :=
        ⟨e1.cq_entry.op_context, e1.cq_entry.flags, e1.tag, FI_ECANCELED, -FI_ECANCELED⟩
      ⟨rest, some e1, cancelReleases e1.state,
       [CancelEvent.multiRecvCompletion e1.cq_entry.op_context, CancelEvent.errWritten err], 0⟩
    else
      let err : CqErrEntry :=
        ⟨e1.cq_entry.op_context, e1.cq_entry.flags, e1.tag, FI_ECANCELED, -FI_ECANCELED⟩
      ⟨rest, some e1, cancelReleases e1.state, [CancelEvent.errWritten err], 0⟩

/-- Observable effects of the data-copy path: a local RDMA read posted to
copy packet data into a GPU buffer, or the final completion written once all
bytes are copied. -/
inductive CopyEvent where
  | localReadPosted (rx_id : Nat) (size : Nat)
  | completionWritten (ctx : Nat)
  deriving DecidableEq, Repr

/-- Modelled from the spec: ofi_copy_to_iov is util code not under src; it
copies as much of the data as fits into the buffer at the offset and returns
the number of bytes copied. -/
def ofi_copy_to_iov (buf : List Nat) (off : Nat) (data : List Nat) :
    List Nat × Nat :=
  if buf.length ≤ off then (buf, 0)
  else
    let n := min data.length (buf.length - off)
    (buf.take off ++ data.take n ++ buf.drop (off + n), n)

/-- Modelled from the spec: rxr_pkt_handle_data_copied is not under src; it
accounts the copied bytes and, once the whole message is copied, writes the
receive completion unless the entry was cancelled, in which case the
completion is suppressed. -/
def rxr_pkt_handle_data_copied (rx : RxEntry) (data_size : Nat) :
    RxEntry × List CopyEvent :=
  let rx1 := { rx with bytes_copied := rx.bytes_copied + data_size }
  if rx1.total_len ≤ rx1.bytes_copied && !rx1.recv_cancel then
    (rx1, [CopyEvent.completionWritten rx1.cq_entry.op_context])
  else (rx1, [])

/-- Embeds rxr_pkt_copy_data_to_rx_entry: data destined to a GPU buffer is
pulled by a posted local read; otherwise the data is copied into the
application buffer unless the entry was cancelled or lies beyond the posted
length, and the copied-data accounting runs in every non-GPU path. -/
def rxr_pkt_copy_data_to_rx_entry (rx : RxEntry) (data_offset : Nat)
    (data : List Nat) : RxEntry × List CopyEvent × Int :=
  if 0 < data.length && rx.desc_cuda then
    (rx, [CopyEvent.localReadPosted rx.rx_id data.length], 0)
  else if !rx.recv_cancel && data_offset < rx.cq_entry.len && 0 < data.length then
    let (buf1, copied) := ofi_copy_to_iov rx.buffer data_offset data
    if copied ≠ min data.length (rx.cq_entry.len - data_offset) then
      (rx, [], -FI_EINVAL)
    else
      let (rx1, evs) := rxr_pkt_handle_data_copied { rx with buffer := buf1 } data.length
      (rx1, evs, 0)
  else
    let (rx1, evs) := rxr_pkt_handle_data_copied rx data.length
    (rx1, evs, 0)

/-! Event classifiers and the ordering predicate the release-order claim
talks about. -/

def isReleasedPrev : AvEvent → Bool
  | AvEvent.releasedPrev _ => true
  | _ => false

def isForwardInserted : AvEvent → Bool
  | AvEvent.forwardInserted _ => true
  | _ => false

def isReverseInserted : AvEvent → Bool
  | AvEvent.reverseInserted _ _ _ => true
  | _ => false

/-- The ordering stated by the claim: the stale peer is released before the
new peer record is allocated and wired into the forward map and before it is
wired into the reverse map. -/
def stalePeerReleasedFirst (tr : List AvEvent) : Bool :=
  match tr.findIdx? isReleasedPrev, tr.findIdx? isForwardInserted,
        tr.findIdx? isReverseInserted with
  | some r, some f, some v => decide (r < f) && decide (r < v)
  | _, _, _ => false

/-- Counts the error completions among cancel events. -/
def isErrWritten : CancelEvent → Bool
  | CancelEvent.errWritten _ => true
  | _ => false

/-! Concrete scenario data used by witnesses and counterexamples. -/

def gidW : List Nat := 1 :: List.replicate 15 0

def cfgW : RxrEpCfg := { core_addr := ⟨9 :: List.replicate 15 0, 0, 0⟩ }

def addrW : EfaEpAddr := ⟨gidW, 5, 100⟩

def addrW2 : EfaEpAddr := ⟨gidW, 5, 200⟩

/-- AV holding addrW under fi address 0 with an idle peer. -/
def connW : EfaConn :=
  { ep_addr := addrW, fi_addr := 0, ah_gid := gidW, ahn := 0
    rdm_peer := { efa_fiaddr := 0 } }

def avW : EfaAv :=
  { entries := [(0, addrW)], conns := [(0, connW)]
    ah_map := [⟨gidW, 0, 1⟩], reverse_av := [((0, 5), 0)]
    next_fi := 1, next_ahn := 1, used := 1 }

/-- Same AV but with the peer of fi address 0 still referenced by an in-use
tx or rx entry. -/
def connBusy : EfaConn :=
  { ep_addr := addrW, fi_addr := 0, ah_gid := gidW, ahn := 0
    rdm_peer := { efa_fiaddr := 0, use_cnt := 1 } }

def avBusy : EfaAv :=
  { entries := [(0, addrW)], conns := [(0, connBusy)]
    ah_map := [⟨gidW, 0, 1⟩], reverse_av := [((0, 5), 0)]
    next_fi := 1, next_ahn := 1, used := 1 }

/-- READRSP packet with the connid flag bit set in the base header. -/
def pktC2 : RxrPkt := ⟨⟨RXR_READRSP_PKT, 4, 0x40⟩, 42⟩

/-- CTS packet with the connid flag bit set. -/
def pktC2cts : RxrPkt := ⟨⟨RXR_CTS_PKT, 4, 0x40⟩, 42⟩

/-- CTS packet with the connid flag bit clear. -/
def pktC2cts0 : RxrPkt := ⟨⟨RXR_CTS_PKT, 4, 0⟩, 42⟩

/-- Endpoint with one peer in RNR backoff. -/
def epC5 : EpRnr := { peers := [(0, { in_backoff := true, rnr_timeout := 7 })] }

/-- An ordinary in-use packet addressed to that peer. -/
def pktC5 : TxPkt := { addr := 0, state := PktState.in_use }

/-- A retransmitted packet addressed to that peer. -/
def pktC5r : TxPkt := { addr := 0, state := PktState.rnr_retransmit }

/-- Endpoint counter state with one idle remote peer and a cap of 2. -/
def epC4 : EpCnt :=
  { tx_pending := 0, max_outstanding_tx := 2, max_data_payload_size := 8
    tx_min_credits := 0, tx_max_credits := 4, peers := [(0, {})] }

/-- A post followed by its completion, with a credit request in between. -/
def trC4 : List TxAction :=
  [TxAction.post 0 0, TxAction.creditRequest 0 100, TxAction.complete 0,
   TxAction.grant 0 3]

/-- Multi-recv posted receive with context 7 and one pending consumer whose
context is 9. -/
def entC8 : RxEntry :=
  { cq_entry := ⟨7, 0, 64⟩, fi_multi_recv := true, multi_recv_posted := true
    consumers := [⟨⟨9, 0, 16⟩, 0, RxState.recv⟩] }

/-- Plain posted receive with context 7. -/
def entC8p : RxEntry := { cq_entry := ⟨7, 3, 64⟩, tag := 11, state := RxState.matched }

/-- Cancelled rx entry backed by host memory. -/
def rxSunk : RxEntry :=
  { cq_entry := ⟨7, 0, 4⟩, recv_cancel := true, buffer := [0, 0, 0, 0], total_len := 4 }

/-- An invalid raw address: all-zero GID. -/
def zeroAddr : EfaEpAddr := ⟨List.replicate 16 0, 3, 7⟩

/-- Peer record of the epC5 backoff peer. -/
def peerC5 : RnrPeer := { in_backoff := true, rnr_timeout := 7 }

end EfaSpec

namespace EfaSpec

/-! Generic lemmas about the association-list helpers. -/

theorem alookup_aupdate_self {α β : Type} [DecidableEq α] (k : α) (f : β → β)
    (l : List (α × β)) :
    alookup k (aupdate k f l) = (alookup k l).map f := by
  induction l with
  | nil => rfl
  | cons hd tl ih =>
    obtain ⟨k₀, v₀⟩ := hd
    by_cases hk : k₀ = k
    · simp [aupdate, alookup, hk]
    · simp [aupdate, alookup, hk, ih]

theorem alookup_aupdate_ne {α β : Type} [DecidableEq α] (k j : α) (f : β → β)
    (l : List (α × β)) (h : j ≠ k) :
    alookup j (aupdate k f l) = alookup j l := by
  induction l with
  | nil => rfl
  | cons hd tl ih =>
    obtain ⟨k₀, v₀⟩ := hd
    by_cases hk : k₀ = k
    · subst hk
      have hj : ¬ k₀ = j := fun he => h he.symm
      simp [aupdate, alookup, hj]
    · by_cases hj : k₀ = j
      · simp [aupdate, alookup, hk, hj, h]
      · simp [aupdate, alookup, hk, hj, ih]

theorem mem_aupdate {α β : Type} [DecidableEq α] (k : α) (f : β → β)
    (l : List (α × β)) (q : α × β) (hq : q ∈ aupdate k f l) :
    q ∈ l ∨ ∃ v, alookup k l = some v ∧ q = (k, f v) := by
  induction l with
  | nil => simp [aupdate] at hq
  | cons hd tl ih =>
    obtain ⟨k₀, v₀⟩ := hd
    by_cases hk : k₀ = k
    · subst hk
      simp only [aupdate, if_pos rfl, if_true, ite_true, List.mem_cons] at hq
      rcases hq with h1 | h2
      · exact Or.inr ⟨v₀, by simp [alookup], h1⟩
      · exact Or.inl (List.mem_cons_of_mem _ h2)
    · simp only [aupdate, if_neg hk, List.mem_cons] at hq
      rcases hq with h1 | h2
      · exact Or.inl (by simp [h1])
      · rcases ih h2 with h3 | ⟨v, hv, hqe⟩
        · exact Or.inl (List.mem_cons_of_mem _ h3)
        · exact Or.inr ⟨v, by simp [alookup, hk, hv], hqe⟩

/-! Lemmas about the AH cache primitives. -/

theorem ahFind_eq_none_of_not_mem (gid : List Nat) (l : List EfaAh)
    (h : gid ∉ l.map EfaAh.gid) : ahFind gid l = none := by
  induction l with
  | nil => rfl
  | cons ah rest ih =>
    simp only [List.map_cons, List.mem_cons, not_or] at h
    have hne : ¬ ah.gid = gid := fun he => h.1 he.symm
    simp only [ahFind, if_neg hne]
    exact ih h.2

theorem ahFind_ahBump_self (gid : List Nat) (l : List EfaAh) :
    ahFind gid (ahBump gid l) =
      (ahFind gid l).map (fun ah => { ah with used := ah.used + 1 }) := by
  induction l with
  | nil => rfl
  | cons ah rest ih =>
    by_cases h : ah.gid = gid
    · simp [ahBump, ahFind, h]
    · simp [ahBump, ahFind, h, ih]

theorem length_ahBump (gid : List Nat) (l : List EfaAh) :
    (ahBump gid l).length = l.length := by
  induction l with
  | nil => rfl
  | cons ah rest ih =>
    by_cases h : ah.gid = gid
    · simp [ahBump, h]
    · simp [ahBump, h, ih]

theorem ahFind_ahDrop_last (gid : List Nat) (l : List EfaAh) (ah : EfaAh)
    (hnd : (l.map EfaAh.gid).Nodup) (hfind : ahFind gid l = some ah)
    (hused : ah.used = 1) : ahFind gid (ahDrop gid l) = none := by
  induction l with
  | nil => simp [ahFind] at hfind
  | cons a rest ih =>
    simp only [List.map_cons, List.nodup_cons] at hnd
    by_cases h : a.gid = gid
    · simp only [ahFind, if_pos h] at hfind
      obtain rfl : a = ah := Option.some.inj hfind
      simp only [ahDrop, if_pos h, hused]
      exact ahFind_eq_none_of_not_mem gid rest (h ▸ hnd.1)
    · simp only [ahFind, if_neg h] at hfind
      simp only [ahDrop, if_neg h, ahFind, if_neg h]
      exact ih hnd.2 hfind

theorem ahFind_ahDrop_dec (gid : List Nat) (l : List EfaAh) (ah : EfaAh)
    (hfind : ahFind gid l = some ah) (hused : 2 ≤ ah.used) :
    ahFind gid (ahDrop gid l) = some { ah with used := ah.used - 1 } := by
  induction l with
  | nil => simp [ahFind] at hfind
  | cons a rest ih =>
    by_cases h : a.gid = gid
    · simp only [ahFind, if_pos h] at hfind
      have he : a = ah := Option.some.inj hfind
      subst he
      have hne : ¬ a.used - 1 = 0 := by omega
      simp [ahDrop, if_pos h, hne, ahFind]
    · simp only [ahFind, if_neg h] at hfind
      simp only [ahDrop, if_neg h, ahFind, if_neg h]
      exact ih hfind

theorem ahBump_used_pos (gid : List Nat) (l : List EfaAh)
    (h : ∀ a ∈ l, 1 ≤ a.used) : ∀ a ∈ ahBump gid l, 1 ≤ a.used := by
  induction l with
  | nil => simp [ahBump]
  | cons a rest ih =>
    intro b hb
    by_cases hg : a.gid = gid
    · simp only [ahBump, if_pos hg, List.mem_cons] at hb
      rcases hb with hb | hb
      · subst hb
        show 1 ≤ a.used + 1
        omega
      · exact h b (List.mem_cons_of_mem _ hb)
    · simp only [ahBump, if_neg hg, List.mem_cons] at hb
      rcases hb with hb | hb
      · subst hb; exact h b (List.mem_cons_self _ _)
      · exact ih (fun x hx => h x (List.mem_cons_of_mem _ hx)) b hb

theorem ahDrop_used_pos (gid : List Nat) (l : List EfaAh)
    (h : ∀ a ∈ l, 1 ≤ a.used) : ∀ a ∈ ahDrop gid l, 1 ≤ a.used := by
  induction l with
  | nil => simp [ahDrop]
  | cons a rest ih =>
    intro b hb
    by_cases hg : a.gid = gid
    · by_cases hz : a.used - 1 = 0
      · simp only [ahDrop, if_pos hg, if_pos hz] at hb
        exact h b (List.mem_cons_of_mem _ hb)
      · simp only [ahDrop, if_pos hg, if_neg hz, List.mem_cons] at hb
        rcases hb with hb | hb
        · subst hb
          show 1 ≤ a.used - 1
          omega
        · exact h b (List.mem_cons_of_mem _ hb)
    · simp only [ahDrop, if_neg hg, List.mem_cons] at hb
      rcases hb with hb | hb
      · subst hb; exact h b (List.mem_cons_self _ _)
      · exact ih (fun x hx => h x (List.mem_cons_of_mem _ hx)) b hb

/-! Component lemmas about efa_conn_release. -/

theorem efa_conn_release_conns (av : EfaAv) (conn : EfaConn) :
    (efa_conn_release av conn).conns = aerase conn.fi_addr av.conns := by
  by_cases h : conn.rdm_peer.is_local <;>
    simp [efa_conn_release, efa_conn_rdm_deinit, efa_ah_release, h]

theorem efa_conn_release_entries (av : EfaAv) (conn : EfaConn) :
    (efa_conn_release av conn).entries = aerase conn.fi_addr av.entries := by
  by_cases h : conn.rdm_peer.is_local <;>
    simp [efa_conn_release, efa_conn_rdm_deinit, efa_ah_release, h]

theorem efa_conn_release_reverse (av : EfaAv) (conn : EfaConn) :
    (efa_conn_release av conn).reverse_av =
      aerase (conn.ahn, conn.ep_addr.qpn) av.reverse_av := by
  by_cases h : conn.rdm_peer.is_local <;>
    simp [efa_conn_release, efa_conn_rdm_deinit, efa_ah_release, h]

theorem efa_conn_release_ah_map (av : EfaAv) (conn : EfaConn) :
    (efa_conn_release av conn).ah_map = ahDrop conn.ah_gid av.ah_map := by
  by_cases h : conn.rdm_peer.is_local <;>
    simp [efa_conn_release, efa_conn_rdm_deinit, efa_ah_release, h]

theorem efa_conn_release_shm (av : EfaAv) (conn : EfaConn)
    (h : conn.rdm_peer.is_local = true) :
    (efa_conn_release av conn).shm_map =
      aerase conn.rdm_peer.shm_fiaddr av.shm_map := by
  simp [efa_conn_release, efa_conn_rdm_deinit, efa_ah_release, h]

/-- C6: AV insert is idempotent: inserting a raw address (GID, QPN, qkey)
already present in the AV returns the existing fi address with status 0 and
leaves the AV unchanged, so no new peer record is created and no new address
handle is allocated. -/
theorem c6_av_insert_idempotent (av : EfaAv) (cfg : RxrEpCfg) (addr : EfaEpAddr)
    (fi₀ : Nat) (hfound : ofi_av_lookup_fi_addr_unsafe av addr = fi₀)
    (hne : fi₀ ≠ FI_ADDR_NOTAVAIL) :
    (efa_av_insert_one av cfg addr).fi_addr = fi₀ ∧
    (efa_av_insert_one av cfg addr).ret = 0 ∧
    (efa_av_insert_one av cfg addr).av = av ∧
    (efa_av_insert_one av cfg addr).av.conns = av.conns ∧
    (efa_av_insert_one av cfg addr).av.ah_map = av.ah_map := by
  simp [efa_av_insert_one, hfound, hne]

/-- Witness for C6: re-inserting the address stored under fi address 0 in a
concrete AV. -/
theorem c6_av_insert_idempotent_witness :
    (efa_av_insert_one avW cfgW addrW).fi_addr = 0 ∧
    (efa_av_insert_one avW cfgW addrW).ret = 0 ∧
    (efa_av_insert_one avW cfgW addrW).av = avW ∧
    (efa_av_insert_one avW cfgW addrW).av.conns = avW.conns ∧
    (efa_av_insert_one avW cfgW addrW).av.ah_map = avW.ah_map :=
  c6_av_insert_idempotent avW cfgW addrW 0 (by decide) (by decide)

/-- C10: reverse lookup is total at the public interface: a pair absent from
the reverse map yields FI_ADDR_NOTAVAIL respectively no peer rather than
failing, and a registered pair yields the fi address respectively the peer
reached through the reverse-map entry. -/
theorem c10_reverse_lookup_total (av : EfaAv) (ahn qpn : Nat) :
    (alookup (ahn, qpn) av.reverse_av = none →
      efa_ahn_qpn_to_addr av ahn qpn = FI_ADDR_NOTAVAIL ∧
      efa_ahn_qpn_to_peer av ahn qpn = none) ∧
    (∀ fi conn, alookup (ahn, qpn) av.reverse_av = some fi →
      alookup fi av.conns = some conn →
      efa_ahn_qpn_to_addr av ahn qpn = fi ∧
      efa_ahn_qpn_to_peer av ahn qpn = some conn.rdm_peer) := by
  constructor
  · intro h
    simp [efa_ahn_qpn_to_addr, efa_ahn_qpn_to_peer, h]
  · intro fi conn h1 h2
    simp [efa_ahn_qpn_to_addr, efa_ahn_qpn_to_peer, h1, h2]

/-- Witness for C10: a registered pair and an unregistered pair on a
concrete AV. -/
theorem c10_reverse_lookup_total_witness :
    (efa_ahn_qpn_to_addr avW 0 5 = 0 ∧
     efa_ahn_qpn_to_peer avW 0 5 = some connW.rdm_peer) ∧
    (efa_ahn_qpn_to_addr avW 1 9 = FI_ADDR_NOTAVAIL ∧
     efa_ahn_qpn_to_peer avW 1 9 = none) :=
  ⟨(c10_reverse_lookup_total avW 0 5).2 0 connW (by decide) (by decide),
   (c10_reverse_lookup_total avW 1 9).1 (by decide)⟩

/-- C7: address handles are reference counted and cached per AV keyed by
GID: allocating for a GID already cached reuses the handle (same AHN, no new
cache entry) and bumps its use count; releasing decrements the count and
removes and destroys the handle exactly when the count reaches zero, also
when the release happens through a peer release; and a cache in which every
handle is referenced stays so under both operations, so the cache never
leaks. -/
theorem c7_ah_cache_refcount (av : EfaAv) (gid : List Nat) (ah : EfaAh)
    (conn : EfaConn) (hfind : ahFind gid av.ah_map = some ah)
    (hgid : conn.ah_gid = gid)
    (hnd : (av.ah_map.map EfaAh.gid).Nodup) :
    ((efa_ah_alloc av gid).2.ahn = ah.ahn ∧
     (efa_ah_alloc av gid).2.used = ah.used + 1 ∧
     (efa_ah_alloc av gid).1.ah_map.length = av.ah_map.length ∧
     ahFind gid (efa_ah_alloc av gid).1.ah_map = some { ah with used := ah.used + 1 }) ∧
    (ah.used = 1 → ahFind gid (efa_ah_release av gid).ah_map = none) ∧
    (2 ≤ ah.used →
      ahFind gid (efa_ah_release av gid).ah_map = some { ah with used := ah.used - 1 }) ∧
    (ah.used = 1 → ahFind gid (efa_conn_release av conn).ah_map = none) ∧
    (2 ≤ ah.used →
      ahFind gid (efa_conn_release av conn).ah_map =
        some { ah with used := ah.used - 1 }) ∧
    ((∀ a ∈ av.ah_map, 1 ≤ a.used) →
      (∀ a ∈ (efa_ah_alloc av gid).1.ah_map, 1 ≤ a.used) ∧
      (∀ a ∈ (efa_ah_release av gid).ah_map, 1 ≤ a.used)) := by
  refine ⟨⟨?_, ?_, ?_, ?_⟩, ?_, ?_, ?_, ?_, ?_⟩
  · simp [efa_ah_alloc, hfind]
  · simp [efa_ah_alloc, hfind]
  · simp [efa_ah_alloc, hfind, length_ahBump]
  · simp [efa_ah_alloc, hfind, ahFind_ahBump_self]
  · intro h1
    show ahFind gid (ahDrop gid av.ah_map) = none
    exact ahFind_ahDrop_last gid av.ah_map ah hnd hfind h1
  · intro h2
    show ahFind gid (ahDrop gid av.ah_map) = some { ah with used := ah.used - 1 }
    exact ahFind_ahDrop_dec gid av.ah_map ah hfind h2
  · intro h1
    rw [efa_conn_release_ah_map, hgid]
    exact ahFind_ahDrop_last gid av.ah_map ah hnd hfind h1
  · intro h2
    rw [efa_conn_release_ah_map, hgid]
    exact ahFind_ahDrop_dec gid av.ah_map ah hfind h2
  · intro hpos
    refine ⟨?_, ?_⟩
    · show ∀ a ∈ (efa_ah_alloc av gid).1.ah_map, 1 ≤ a.used
      simp only [efa_ah_alloc, hfind]
      exact ahBump_used_pos gid av.ah_map hpos
    · exact ahDrop_used_pos gid av.ah_map hpos

/-- Witness for C7: on a concrete AV holding one handle with use count 1,
reallocation bumps the count to 2 and release destroys the handle. -/
theorem c7_ah_cache_refcount_witness :
    ahFind gidW (efa_ah_alloc avW gidW).1.ah_map =
      some { gid := gidW, ahn := 0, used := 2 } ∧
    ahFind gidW (efa_ah_release avW gidW).ah_map = none := by
  have h := c7_ah_cache_refcount avW gidW ⟨gidW, 0, 1⟩ connW (by decide) (by decide)
    (by decide)
  exact ⟨h.1.2.2.2, h.2.1 (by decide)⟩

/-- C3: removing an fi address whose peer is still referenced by an in-use
tx or rx entry fails with EBUSY and leaves the AV state unchanged; removing
one with no references succeeds and releases the shm mapping, the peer
record, the reverse-map entry and the AH reference, destroying the AH when
its reference count reaches zero. -/
theorem c3_av_remove_busy_or_release (av : EfaAv) (fi : Nat) (conn : EfaConn)
    (ah : EfaAh)
    (hconn : efa_av_addr_to_conn av fi = some conn)
    (hfi : conn.fi_addr = fi)
    (hah : ahFind conn.ah_gid av.ah_map = some ah)
    (hconnnd : (av.conns.map Prod.fst).Nodup)
    (hentnd : (av.entries.map Prod.fst).Nodup)
    (hrevnd : (av.reverse_av.map Prod.fst).Nodup)
    (hshmnd : (av.shm_map.map Prod.fst).Nodup)
    (hahnd : (av.ah_map.map EfaAh.gid).Nodup) :
    (0 < conn.rdm_peer.use_cnt →
      efa_av_remove av [fi] = (-FI_EBUSY, av)) ∧
    (conn.rdm_peer.use_cnt = 0 →
      (efa_av_remove av [fi]).1 = 0 ∧
      alookup fi (efa_av_remove av [fi]).2.conns = none ∧
      alookup fi (efa_av_remove av [fi]).2.entries = none ∧
      alookup (conn.ahn, conn.ep_addr.qpn) (efa_av_remove av [fi]).2.reverse_av = none ∧
      (ah.used = 1 →
        ahFind conn.ah_gid (efa_av_remove av [fi]).2.ah_map = none) ∧
      (2 ≤ ah.used →
        ahFind conn.ah_gid (efa_av_remove av [fi]).2.ah_map =
          some { ah with used := ah.used - 1 }) ∧
      (conn.rdm_peer.is_local = true →
        alookup conn.rdm_peer.shm_fiaddr (efa_av_remove av [fi]).2.shm_map = none)) := by
  constructor
  · intro hbusy
    have hb : efa_peer_in_use conn.rdm_peer = true := by
      simp only [efa_peer_in_use, decide_eq_true_eq]
      exact hbusy
    simp [efa_av_remove, removeLoop, hconn, hb]
  · intro hfree
    have hb : efa_peer_in_use conn.rdm_peer = false := by
      simp [efa_peer_in_use, hfree]
    have hrun : efa_av_remove av [fi] = (0, efa_conn_release av conn) := by
      simp [efa_av_remove, removeLoop, hconn, hb]
    rw [hrun]
    refine ⟨rfl, ?_, ?_, ?_, ?_, ?_, ?_⟩
    · rw [efa_conn_release_conns, hfi]
      exact alookup_aerase_self _ _ hconnnd
    · rw [efa_conn_release_entries, hfi]
      exact alookup_aerase_self _ _ hentnd
    · rw [efa_conn_release_reverse]
      exact alookup_aerase_self _ _ hrevnd
    · intro h1
      rw [efa_conn_release_ah_map]
      exact ahFind_ahDrop_last _ _ ah hahnd hah h1
    · intro h2
      rw [efa_conn_release_ah_map]
      exact ahFind_ahDrop_dec _ _ ah hah h2
    · intro hl
      rw [efa_conn_release_shm av conn hl]
      exact alookup_aerase_self _ _ hshmnd

/-- C2 counterexample: a READRSP packet with its connid flag bit set in the
base header; the accessor returns none instead of the embedded connid
field, contradicting the claim for base-header type READRSP. -/
theorem c2_connid_hdr_counterexample :
    pktC2.base.type = RXR_READRSP_PKT ∧
    pktC2.base.flags &&& RXR_READRSP_OPT_CONNID_HDR ≠ 0 ∧
    rxr_pkt_connid_hdr pktC2 ≠ some pktC2.connid ∧
    rxr_pkt_connid_hdr pktC2 = none := by decide

/-- C2 (amended): for received non-REQ packets of type CTS, DATA, RECEIPT or
HANDSHAKE, the connid accessor returns the embedded connid field exactly
when the type-specific flag bit is set in the base-header flags and none
when it is clear; for READRSP and EOR packets the accessor returns none
regardless of the flags. -/
theorem c2_connid_hdr_amended (pkt : RxrPkt) :
    (pkt.base.type = RXR_CTS_PKT →
      (pkt.base.flags &&& RXR_CTS_OPT_CONNID_HDR ≠ 0 →
        rxr_pkt_connid_hdr pkt = some pkt.connid) ∧
      (pkt.base.flags &&& RXR_CTS_OPT_CONNID_HDR = 0 →
        rxr_pkt_connid_hdr pkt = none)) ∧
    (pkt.base.type = RXR_DATA_PKT →
      (pkt.base.flags &&& RXR_DATA_OPT_CONNID_HDR ≠ 0 →
        rxr_pkt_connid_hdr pkt = some pkt.connid) ∧
      (pkt.base.flags &&& RXR_DATA_OPT_CONNID_HDR = 0 →
        rxr_pkt_connid_hdr pkt = none)) ∧
    (pkt.base.type = RXR_RECEIPT_PKT →
      (pkt.base.flags &&& RXR_RECEIPT_OPT_CONNID_HDR ≠ 0 →
        rxr_pkt_connid_hdr pkt = some pkt.connid) ∧
      (pkt.base.flags &&& RXR_RECEIPT_OPT_CONNID_HDR = 0 →
        rxr_pkt_connid_hdr pkt = none)) ∧
    (pkt.base.type = RXR_HANDSHAKE_PKT →
      (pkt.base.flags &&& RXR_HANDSHAKE_OPT_CONNID_HDR ≠ 0 →
        rxr_pkt_connid_hdr pkt = some pkt.connid) ∧
      (pkt.base.flags &&& RXR_HANDSHAKE_OPT_CONNID_HDR = 0 →
        rxr_pkt_connid_hdr pkt = none)) ∧
    (pkt.base.type = RXR_READRSP_PKT → rxr_pkt_connid_hdr pkt = none) ∧
    (pkt.base.type = RXR_EOR_PKT → rxr_pkt_connid_hdr pkt = none) := by
  refine ⟨fun ht => ⟨fun hbit => ?_, fun hbit => ?_⟩,
          fun ht => ⟨fun hbit => ?_, fun hbit => ?_⟩,
          fun ht => ⟨fun hbit => ?_, fun hbit => ?_⟩,
          fun ht => ⟨fun hbit => ?_, fun hbit => ?_⟩,
          fun ht => ?_, fun ht => ?_⟩ <;>
    first
      | simp [rxr_pkt_connid_hdr, ht, hbit, RXR_REQ_PKT_BEGIN, RXR_CTS_PKT,
          RXR_DATA_PKT, RXR_RECEIPT_PKT, RXR_HANDSHAKE_PKT, RXR_READRSP_PKT,
          RXR_EOR_PKT]
      | simp [rxr_pkt_connid_hdr, ht, RXR_REQ_PKT_BEGIN, RXR_CTS_PKT,
          RXR_DATA_PKT, RXR_RECEIPT_PKT, RXR_HANDSHAKE_PKT, RXR_READRSP_PKT,
          RXR_EOR_PKT]

/-- Witness for C2 (amended): a CTS packet with the flag set yields its
connid; with the flag clear it yields none. -/
theorem c2_connid_hdr_amended_witness :
    rxr_pkt_connid_hdr pktC2cts = some 42 ∧
    rxr_pkt_connid_hdr pktC2cts0 = none :=
  ⟨((c2_connid_hdr_amended pktC2cts).1 (by decide)).1 (by decide),
   ((c2_connid_hdr_amended pktC2cts0).1 (by decide)).2 (by decide)⟩

/-- C5 counterexample: a peer in RNR backoff and a successful send
completion for an ordinary in-use packet addressed to it: releasing the
packet leaves the backoff flag and the rnr timeout untouched, contradicting
the claim that observing any successful send completion resets the backoff
state. -/
theorem c5_backoff_reset_counterexample :
    (alookup 0 epC5.peers).map RnrPeer.in_backoff = some true ∧
    pktC5.addr = 0 ∧
    pktC5.state ≠ PktState.rnr_retransmit ∧
    (rxr_pkt_entry_release_tx epC5 pktC5).1 = epC5 ∧
    (alookup 0 (rxr_pkt_entry_release_tx epC5 pktC5).1.peers).map RnrPeer.in_backoff =
      some true := by decide

/-- C5 (amended): releasing a sent packet resets its peer backoff state
(clears the flag, zeroes the rnr timeout) exactly when the packet was in
RNR-retransmit state; releasing a packet in any other state leaves every
peer unchanged; the released packet entry always becomes free. -/
theorem c5_backoff_reset_amended (ep : EpRnr) (pkt : TxPkt) (p : RnrPeer)
    (hp : alookup pkt.addr ep.peers = some p) :
    (pkt.state = PktState.rnr_retransmit →
      alookup pkt.addr (rxr_pkt_entry_release_tx ep pkt).1.peers =
        some { p with in_backoff := false, rnr_timeout := 0 }) ∧
    (pkt.state ≠ PktState.rnr_retransmit →
      (rxr_pkt_entry_release_tx ep pkt).1 = ep) ∧
    (rxr_pkt_entry_release_tx ep pkt).2.state = PktState.free := by
  refine ⟨?_, ?_, ?_⟩
  · intro hs
    have hpeers : (rxr_pkt_entry_release_tx ep pkt).1.peers =
        aupdate pkt.addr (fun p => { p with rnr_timeout := 0, in_backoff := false })
          ep.peers := by
      simp [rxr_pkt_entry_release_tx, hs]
    rw [hpeers, alookup_aupdate_self, hp]
    rfl
  · intro hs
    simp [rxr_pkt_entry_release_tx, hs]
  · simp [rxr_pkt_entry_release_tx]

/-- Witness for C5 (amended): completing a retransmitted packet to the
backoff peer clears the flag and zeroes the timeout. -/
theorem c5_backoff_reset_amended_witness :
    alookup 0 (rxr_pkt_entry_release_tx epC5 pktC5r).1.peers =
      some { peerC5 with in_backoff := false, rnr_timeout := 0 } ∧
    (rxr_pkt_entry_release_tx epC5 pktC5r).2.state = PktState.free := by
  have h := c5_backoff_reset_amended epC5 pktC5r peerC5 (by decide)
  exact ⟨h.1 (by decide), h.2.2⟩

/-- Positional access to a replicated list. -/
theorem getD_replicate {α : Type} (d a : α) (k j : Nat) (h : j < k) :
    (List.replicate k a).getD j d = a := by
  induction k generalizing j with
  | zero => omega
  | succ n ih =>
    cases j with
    | zero => rfl
    | succ m => exact ih m (by omega)

/-- Positional access past the left part of an append. -/
theorem getD_append_right {α : Type} (l₁ l₂ : List α) (d : α) (i : Nat)
    (h : l₁.length ≤ i) : (l₁ ++ l₂).getD i d = l₂.getD (i - l₁.length) d := by
  induction l₁ generalizing i with
  | nil => simp
  | cons a t ih =>
    cases i with
    | zero => simp at h
    | succ m =>
      simp only [List.cons_append, List.length_cons]
      show (t ++ l₂).getD m d = _
      rw [ih m (by simpa using h)]
      congr 1
      omega

/-- Length and stop-on-failure facts about the insertion loop. -/
theorem insertLoop_spec (cfg : RxrEpCfg) (addrs : List EfaEpAddr) (av : EfaAv) :
    (insertLoop av cfg addrs).2.1.length = (insertLoop av cfg addrs).1 ∧
    (insertLoop av cfg addrs).1 ≤ addrs.length ∧
    ((insertLoop av cfg addrs).1 < addrs.length → (insertLoop av cfg addrs).2.2.2 ≠ 0) := by
  induction addrs generalizing av with
  | nil => simp [insertLoop]
  | cons addr rest ih =>
    by_cases hr : (efa_av_insert_one av cfg addr).ret ≠ 0
    · simp only [insertLoop, if_pos hr]
      exact ⟨rfl, by simp, fun _ => hr⟩
    · simp only [insertLoop, if_neg hr]
      obtain ⟨h1, h2, h3⟩ := ih ((efa_av_insert_one av cfg addr).av)
      refine ⟨?_, ?_, ?_⟩
      · simp [h1]
      · simp only [List.length_cons]
        omega
      · intro hlt
        simp only [List.length_cons] at hlt
        exact h3 (by omega)

/-- C9 counterexample: a batched insert whose flags fail validation (sync
err requested without a context) returns the negative error code -FI_EINVAL
instead of a count of inserted addresses, and writes no output slot. -/
theorem c9_batched_insert_counterexample :
    (efa_av_insert {} cfgW false { sync_err := true } false [addrW]).ret = -FI_EINVAL ∧
    (efa_av_insert {} cfgW false { sync_err := true } false [addrW]).ret < 0 ∧
    (efa_av_insert {} cfgW false { sync_err := true } false [addrW]).fi_addrs = [] := by
  decide

/-- C9 (amended): when the flags argument passes validation, batched insert
returns the nonnegative number of successfully inserted addresses; the
output array has one slot per input, the slots before the count hold the
fi addresses produced by the successful inserts and every slot at or after
the count holds FI_ADDR_NOTAVAIL; and whenever the count falls short of the
input length the loop stopped at an insert that failed.  When flag
validation fails a negative error code is returned and no slot is written. -/
theorem c9_batched_insert_amended (av : EfaAv) (cfg : RxrEpCfg)
    (flags : InsertFlags) (hasContext : Bool) (addrs : List EfaEpAddr)
    (hsync : flags.sync_err = false) (hev : flags.event = false)
    (hoth : flags.other = false) :
    0 ≤ (efa_av_insert av cfg false flags hasContext addrs).ret ∧
    (efa_av_insert av cfg false flags hasContext addrs).ret =
      Int.ofNat (insertLoop av cfg addrs).1 ∧
    (insertLoop av cfg addrs).1 ≤ addrs.length ∧
    (efa_av_insert av cfg false flags hasContext addrs).fi_addrs =
      (insertLoop av cfg addrs).2.1 ++
        List.replicate (addrs.length - (insertLoop av cfg addrs).1) FI_ADDR_NOTAVAIL ∧
    (efa_av_insert av cfg false flags hasContext addrs).fi_addrs.length =
      addrs.length ∧
    (∀ i, (insertLoop av cfg addrs).1 ≤ i → i < addrs.length →
      (efa_av_insert av cfg false flags hasContext addrs).fi_addrs.getD i 0 =
        FI_ADDR_NOTAVAIL) ∧
    ((insertLoop av cfg addrs).1 < addrs.length →
      (insertLoop av cfg addrs).2.2.2 ≠ 0) := by
  obtain ⟨hlen, hle, hstop⟩ := insertLoop_spec cfg addrs av
  have hres : efa_av_insert av cfg false flags hasContext addrs =
      ⟨Int.ofNat (insertLoop av cfg addrs).1,
       (insertLoop av cfg addrs).2.1 ++
         List.replicate (addrs.length - (insertLoop av cfg addrs).1) FI_ADDR_NOTAVAIL,
       (insertLoop av cfg addrs).2.2.1⟩ := by
    simp [efa_av_insert, hsync, hev, hoth]
  rw [hres]
  refine ⟨?_, rfl, hle, rfl, ?_, ?_, hstop⟩
  · show 0 ≤ Int.ofNat (insertLoop av cfg addrs).1
    exact Int.natCast_nonneg _
  · simp only [List.length_append, List.length_replicate, hlen]
    omega
  · intro i hi1 hi2
    rw [getD_append_right _ _ _ i (by omega)]
    exact getD_replicate _ _ _ _ (by omega)

/-- Witness for C9 (amended): inserting a good address, an invalid all-zero
address and a further address: one success is reported and the remaining
slots read FI_ADDR_NOTAVAIL. -/
theorem c9_batched_insert_amended_witness :
    0 ≤ (efa_av_insert {} cfgW false {} false [addrW, zeroAddr, addrW2]).ret ∧
    (efa_av_insert {} cfgW false {} false [addrW, zeroAddr, addrW2]).ret = 1 ∧
    (efa_av_insert {} cfgW false {} false [addrW, zeroAddr, addrW2]).fi_addrs.getD 1 0 =
      FI_ADDR_NOTAVAIL ∧
    (efa_av_insert {} cfgW false {} false [addrW, zeroAddr, addrW2]).fi_addrs.getD 2 0 =
      FI_ADDR_NOTAVAIL := by
  have h := c9_batched_insert_amended {} cfgW {} false [addrW, zeroAddr, addrW2]
    rfl rfl rfl
  refine ⟨h.1, ?_, h.2.2.2.2.2.1 1 (by decide) (by decide),
    h.2.2.2.2.2.1 2 (by decide) (by decide)⟩
  rw [h.2.1]
  decide

/-- C1 counterexample: on a QP-reuse insert (the (AHN, QPN) pair of the new
address is already bound in the reverse map) the run does release the stale
peer, but the recorded event order refutes the claimed ordering: the stale
release does not precede the allocation and forward-map wiring of the new
peer record. -/
theorem c1_stale_release_order_counterexample :
    ((efa_conn_alloc avW cfgW addrW2).2.2).any isReleasedPrev = true ∧
    stalePeerReleasedFirst ((efa_conn_alloc avW cfgW addrW2).2.2) = false := by
  decide

/-- C1 (amended): on an insert whose (AHN, QPN) pair is already bound in the
reverse map, the stale prior peer is released after the new peer record has
been allocated and wired into the forward map, but before the new
reverse-map entry is installed; after the insert the reverse map binds
(AHN, QPN) to the newly inserted peer and the prior peer record is gone. -/
theorem c1_qp_reuse_insert_amended (av : EfaAv) (cfg : RxrEpCfg)
    (addr : EfaEpAddr) (ah : EfaAh) (prevFi : Nat) (prevConn : EfaConn)
    (hvalid : efa_av_is_valid_address addr = true)
    (hshm : av.shm_used < cfg.shm_av_size)
    (hah : ahFind addr.raw av.ah_map = some ah)
    (hrev : alookup (ah.ahn, addr.qpn) av.reverse_av = some prevFi)
    (hpc : alookup prevFi av.conns = some prevConn)
    (hpahn : prevConn.ahn = ah.ahn)
    (hpqpn : prevConn.ep_addr.qpn = addr.qpn)
    (hpfi : prevConn.fi_addr = prevFi)
    (hfresh : prevFi ≠ av.next_fi)
    (hrevnd : (av.reverse_av.map Prod.fst).Nodup)
    (hconnnd : (av.conns.map Prod.fst).Nodup) :
    (efa_conn_alloc av cfg addr).2.2 =
      [AvEvent.forwardInserted av.next_fi, AvEvent.ahAllocated ah.ahn,
       AvEvent.peerWired av.next_fi, AvEvent.releasedPrev prevFi,
       AvEvent.reverseInserted ah.ahn addr.qpn av.next_fi] ∧
    ((efa_conn_alloc av cfg addr).2.1.map EfaConn.fi_addr) = some av.next_fi ∧
    alookup (ah.ahn, addr.qpn) (efa_conn_alloc av cfg addr).1.reverse_av =
      some av.next_fi ∧
    alookup prevFi (efa_conn_alloc av cfg addr).1.conns = none := by
  have hno : ¬ (cfg.shm_av_size ≤ av.shm_used) := by omega
  have hkey : (prevConn.ahn, prevConn.ep_addr.qpn) = (ah.ahn, addr.qpn) := by
    rw [hpahn, hpqpn]
  by_cases hlocal : (cfg.use_shm && efa_is_local_peer cfg addr) = true
  case pos =>
    refine ⟨?_, ?_, ?_, ?_⟩
    · simp [efa_conn_alloc, hvalid, efa_ah_alloc, hah, efa_conn_rdm_init,
        hlocal, hno, hrev, hpc]
    · simp [efa_conn_alloc, hvalid, efa_ah_alloc, hah, efa_conn_rdm_init,
        hlocal, hno, hrev, hpc]
    · simp only [efa_conn_alloc, hvalid, efa_ah_alloc, hah, efa_conn_rdm_init,
        hlocal, hno, hrev, hpc]
      simp [hlocal, hno, hrev, hpc, efa_conn_release_reverse, hkey]
      rw [alookup_append_right]
      · simp [alookup]
      · exact alookup_aerase_self _ _ hrevnd
    · simp only [efa_conn_alloc, hvalid, efa_ah_alloc, hah, efa_conn_rdm_init,
        hlocal, hno, hrev, hpc]
      simp [hlocal, hno, hrev, hpc, efa_conn_release_conns, hpfi]
      rw [alookup_append_right]
      · simp only [alookup]
        rw [if_neg (fun he => hfresh he.symm)]
      · exact alookup_aerase_self _ _ hconnnd
  case neg =>
    refine ⟨?_, ?_, ?_, ?_⟩
    · simp [efa_conn_alloc, hvalid, efa_ah_alloc, hah, efa_conn_rdm_init,
        hlocal, hrev, hpc]
    · simp [efa_conn_alloc, hvalid, efa_ah_alloc, hah, efa_conn_rdm_init,
        hlocal, hrev, hpc]
    · simp only [efa_conn_alloc, hvalid, efa_ah_alloc, hah, efa_conn_rdm_init,
        hlocal, hrev, hpc]
      simp [hlocal, hrev, hpc, efa_conn_release_reverse, hkey]
      rw [alookup_append_right]
      · simp [alookup]
      · exact alookup_aerase_self _ _ hrevnd
    · simp only [efa_conn_alloc, hvalid, efa_ah_alloc, hah, efa_conn_rdm_init,
        hlocal, hrev, hpc]
      simp [hlocal, hrev, hpc, efa_conn_release_conns, hpfi]
      rw [alookup_append_right]
      · simp only [alookup]
        rw [if_neg (fun he => hfresh he.symm)]
      · exact alookup_aerase_self _ _ hconnnd

/-- Witness for C1 (amended): the concrete QP-reuse insert: the release
event sits between the forward wiring and the reverse wiring, and the final
reverse map binds the pair to the new peer. -/
theorem c1_qp_reuse_insert_amended_witness :
    (efa_conn_alloc avW cfgW addrW2).2.2 =
      [AvEvent.forwardInserted 1, AvEvent.ahAllocated 0, AvEvent.peerWired 1,
       AvEvent.releasedPrev 0, AvEvent.reverseInserted 0 5 1] ∧
    alookup (0, 5) (efa_conn_alloc avW cfgW addrW2).1.reverse_av = some 1 ∧
    alookup 0 (efa_conn_alloc avW cfgW addrW2).1.conns = none := by
  have h := c1_qp_reuse_insert_amended avW cfgW addrW2 ⟨gidW, 0, 1⟩ 0 connW
    (by decide) (by decide) (by decide) (by decide) (by decide) (by decide)
    (by decide) (by decide) (by decide) (by decide) (by decide)
  exact ⟨h.1, h.2.2.1, h.2.2.2⟩

/-- Context of the first match returned by the cancel search. -/
theorem removeFirstMatch_ctx (ctx : Nat) :
    ∀ (l : List RxEntry) (e : RxEntry) (rest : List RxEntry),
      removeFirstMatch ctx l = some (e, rest) → e.cq_entry.op_context = ctx := by
  intro l
  induction l with
  | nil => intro e rest h; simp [removeFirstMatch] at h
  | cons a t ih =>
    intro e rest h
    by_cases ha : a.cq_entry.op_context = ctx
    · simp only [removeFirstMatch, if_pos ha] at h
      obtain ⟨h1, h2⟩ := Prod.mk.injEq .. ▸ Option.some.inj h
      exact h1 ▸ ha
    · simp only [removeFirstMatch, if_neg ha] at h
      cases hm : removeFirstMatch ctx t with
      | none => rw [hm] at h; simp at h
      | some p =>
        obtain ⟨e', rest'⟩ := p
        rw [hm] at h
        simp only [Option.some.injEq, Prod.mk.injEq] at h
        exact h.1 ▸ ih e' rest' hm

/-- C8 counterexample: cancelling a multi-recv posted receive (context 7)
with a pending consumer (context 9): the single FI_ECANCELED error
completion written carries the consumer context 9, not the cancelled
context 7. -/
theorem c8_cancel_recv_counterexample :
    (rxr_ep_cancel_recv [entC8] 7).events =
      [CancelEvent.multiRecvCompletion 9,
       CancelEvent.errWritten ⟨9, 0, 0, FI_ECANCELED, -FI_ECANCELED⟩] ∧
    ((rxr_ep_cancel_recv [entC8] 7).events.all
      (fun ev =>
        match ev with
        | CancelEvent.errWritten er => decide (er.op_context ≠ 7)
        | _ => true)) = true := by
  decide

/-- C8 (amended): cancelling a posted receive that is not a multi-recv
buffer flags the entry RECV_CANCEL and writes exactly one FI_ECANCELED
error completion carrying that context; and a cancelled entry whose receive
buffer is in host memory sinks subsequent matching data silently: nothing
is copied to the application buffer and no further completion is written
for that entry. -/
theorem c8_cancel_recv_amended (recv_list : List RxEntry) (ctx : Nat)
    (e : RxEntry) (rest : List RxEntry)
    (hmatch : removeFirstMatch ctx recv_list = some (e, rest))
    (hmr : e.fi_multi_recv = false) :
    (rxr_ep_cancel_recv recv_list ctx).cancelled =
      some { e with recv_cancel := true } ∧
    e.cq_entry.op_context = ctx ∧
    (rxr_ep_cancel_recv recv_list ctx).events =
      [CancelEvent.errWritten
        ⟨ctx, e.cq_entry.flags, e.tag, FI_ECANCELED, -FI_ECANCELED⟩] ∧
    ((rxr_ep_cancel_recv recv_list ctx).events.countP isErrWritten) = 1 ∧
    (∀ (rx : RxEntry) (off : Nat) (data : List Nat),
      rx.recv_cancel = true → rx.desc_cuda = false →
      (rxr_pkt_copy_data_to_rx_entry rx off data).1.buffer = rx.buffer ∧
      (rxr_pkt_copy_data_to_rx_entry rx off data).2.1 = [] ∧
      (rxr_pkt_copy_data_to_rx_entry rx off data).2.2 = 0) := by
  have hctx := removeFirstMatch_ctx ctx recv_list e rest hmatch
  refine ⟨?_, hctx, ?_, ?_, ?_⟩
  · simp [rxr_ep_cancel_recv, hmatch, hmr]
  · simp [rxr_ep_cancel_recv, hmatch, hmr, hctx]
  · simp [rxr_ep_cancel_recv, hmatch, hmr, isErrWritten]
  · intro rx off data hc hcuda
    refine ⟨?_, ?_, ?_⟩ <;>
      simp [rxr_pkt_copy_data_to_rx_entry, rxr_pkt_handle_data_copied, hc, hcuda]

/-- Witness for C8 (amended): cancelling a plain posted receive writes one
FI_ECANCELED carrying its context, and a concrete cancelled host-memory
entry sinks incoming data without copying. -/
theorem c8_cancel_recv_amended_witness :
    (rxr_ep_cancel_recv [entC8p] 7).cancelled =
      some { entC8p with recv_cancel := true } ∧
    (rxr_ep_cancel_recv [entC8p] 7).events =
      [CancelEvent.errWritten ⟨7, 3, 11, FI_ECANCELED, -FI_ECANCELED⟩] ∧
    (rxr_pkt_copy_data_to_rx_entry rxSunk 0 [5, 6]).1.buffer = rxSunk.buffer ∧
    (rxr_pkt_copy_data_to_rx_entry rxSunk 0 [5, 6]).2.1 = [] := by
  have h := c8_cancel_recv_amended [entC8p] 7 entC8p [] (by decide) (by decide)
  have hs := h.2.2.2.2 rxSunk 0 [5, 6] (by decide) (by decide)
  exact ⟨h.1, h.2.2.1, hs.1, hs.2.1⟩

/-- Witness for C3: on concrete AVs, removing a busy peer is refused with
EBUSY and the state is returned unchanged, while removing an idle peer
succeeds and clears the reverse map and the AH cache. -/
theorem c3_av_remove_busy_or_release_witness :
    efa_av_remove avBusy [0] = (-FI_EBUSY, avBusy) ∧
    ((efa_av_remove avW [0]).1 = 0 ∧
     alookup 0 (efa_av_remove avW [0]).2.conns = none ∧
     alookup (connW.ahn, connW.ep_addr.qpn) (efa_av_remove avW [0]).2.reverse_av = none ∧
     ahFind connW.ah_gid (efa_av_remove avW [0]).2.ah_map = none) := by
  have hbusy := (c3_av_remove_busy_or_release avBusy 0 connBusy ⟨gidW, 0, 1⟩
    (by decide) (by decide) (by decide) (by decide) (by decide) (by decide)
    (by decide) (by decide)).1 (by decide)
  have hfree := (c3_av_remove_busy_or_release avW 0 connW ⟨gidW, 0, 1⟩
    (by decide) (by decide) (by decide) (by decide) (by decide) (by decide)
    (by decide) (by decide)).2 (by decide)
  exact ⟨hbusy, hfree.1, hfree.2.1, hfree.2.2.2.1, hfree.2.2.2.2.1 (by decide)⟩

/-! Lemmas for the outstanding-tx invariant. -/

theorem peersSum_aupdate (k : Nat) (f : PeerCnt → PeerCnt)
    (ps : List (Nat × PeerCnt)) (p : PeerCnt) (h : alookup k ps = some p) :
    peersSum (aupdate k f ps) =
      peersSum ps + ((f p).tx_pending - p.tx_pending) := by
  induction ps with
  | nil => simp [alookup] at h
  | cons hd tl ih =>
    obtain ⟨k₀, v₀⟩ := hd
    by_cases hk : k₀ = k
    · simp only [alookup, if_pos hk] at h
      obtain rfl := Option.some.inj h
      simp only [aupdate, if_pos hk, peersSum]
      omega
    · simp only [alookup, if_neg hk] at h
      simp only [aupdate, if_neg hk, peersSum, ih h]
      omega

theorem peersSum_nonneg (ps : List (Nat × PeerCnt))
    (h : ∀ q ∈ ps, 0 ≤ q.2.tx_pending) : 0 ≤ peersSum ps := by
  induction ps with
  | nil => simp [peersSum]
  | cons q tl ih =>
    have h1 := h q (List.mem_cons_self _ _)
    have h2 := ih (fun x hx => h x (List.mem_cons_of_mem _ hx))
    simp only [peersSum]
    omega

theorem le_peersSum (ps : List (Nat × PeerCnt)) (q : Nat × PeerCnt)
    (hq : q ∈ ps) (h : ∀ r ∈ ps, 0 ≤ r.2.tx_pending) :
    q.2.tx_pending ≤ peersSum ps := by
  induction ps with
  | nil => simp at hq
  | cons a tl ih =>
    simp only [List.mem_cons] at hq
    rcases hq with rfl | hq
    · have := peersSum_nonneg tl (fun r hr => h r (List.mem_cons_of_mem _ hr))
      simp only [peersSum]
      omega
    · have h1 := h a (List.mem_cons_self _ _)
      have h2 := ih hq (fun r hr => h r (List.mem_cons_of_mem _ hr))
      simp only [peersSum]
      omega

/-- The post path either leaves the state untouched or, when the cap was not
reached and the peer exists, increments the outstanding-tx counters. -/
theorem sendmsg_cases (ep : EpCnt) (addr : Nat) (r : Int) :
    (rxr_pkt_entry_sendmsg ep addr r).1 = ep ∨
    (¬ ep.tx_pending = ep.max_outstanding_tx ∧
     (∃ p, alookup addr ep.peers = some p) ∧
     (rxr_pkt_entry_sendmsg ep addr r).1 = rxr_ep_inc_tx_pending ep addr) := by
  unfold rxr_pkt_entry_sendmsg
  split
  · exact Or.inl rfl
  next hfull =>
    split
    · exact Or.inl rfl
    next p hp =>
      split
      · exact Or.inl rfl
      · split
        · exact Or.inl rfl
        · split
          · exact Or.inr ⟨hfull, ⟨p, hp⟩, rfl⟩
          · exact Or.inl rfl

/-- If the key is absent, aupdate is the identity. -/
theorem aupdate_eq_of_lookup_none {α β : Type} [DecidableEq α] (k : α)
    (f : β → β) (l : List (α × β)) (h : alookup k l = none) :
    aupdate k f l = l := by
  induction l with
  | nil => rfl
  | cons hd tl ih =>
    obtain ⟨k₀, v₀⟩ := hd
    by_cases hk : k₀ = k
    · simp [alookup, hk] at h
    · simp only [alookup, if_neg hk] at h
      simp [aupdate, hk, ih h]

/-- The credit computation never changes the outstanding counter of the
peer. -/
theorem creditUpdatedPeer_tx_pending (ep : EpCnt) (len : Nat) (p₀ : PeerCnt) :
    (creditUpdatedPeer ep len p₀).1.tx_pending = p₀.tx_pending := by
  cases hinit : p₀.tx_init <;>
    simp [creditUpdatedPeer, rxr_ep_peer_init_tx, hinit] <;>
    (try split) <;> rfl

/-- The credit computation keeps a nonnegative credit balance nonnegative:
the request is only deducted when it fits. -/
theorem creditUpdatedPeer_credits_nonneg (ep : EpCnt) (len : Nat) (p₀ : PeerCnt)
    (hc : 0 ≤ p₀.tx_credits) :
    0 ≤ (creditUpdatedPeer ep len p₀).1.tx_credits := by
  cases hinit : p₀.tx_init
  · simp [creditUpdatedPeer, rxr_ep_peer_init_tx, hinit]
    split
    next hg =>
      refine Int.sub_nonneg.mpr (sup_le ?_ (Int.ofNat_le.mpr hg.2))
      rcases hg.1 with h1 | h1
      · exact le_trans inf_le_left h1
      · exact le_trans inf_le_right h1
    next => exact Int.natCast_nonneg _
  · simp [creditUpdatedPeer, rxr_ep_peer_init_tx, hinit]
    split
    next hg =>
      refine Int.sub_nonneg.mpr (sup_le ?_ hg.2)
      rcases hg.1 with h1 | h1
      · exact le_trans inf_le_left h1
      · exact le_trans inf_le_right h1
    next => exact hc

/-- The credit-request path either leaves the state untouched or replaces
the peer record by one with the same outstanding count and a credit balance
that stays nonnegative. -/
theorem creditRequest_cases (ep : EpCnt) (addr : Nat) (len : Nat) :
    (rxr_ep_set_tx_credit_request ep addr len).1 = ep ∨
    ∃ p₀ p1, alookup addr ep.peers = some p₀ ∧
      (rxr_ep_set_tx_credit_request ep addr len).1 =
        { ep with peers := aupdate addr (fun _ => p1) ep.peers } ∧
      p1.tx_pending = p₀.tx_pending ∧
      (0 ≤ p₀.tx_credits → 0 ≤ p1.tx_credits) := by
  unfold rxr_ep_set_tx_credit_request
  split
  · exact Or.inl rfl
  next p₀ hp =>
    exact Or.inr ⟨p₀, (creditUpdatedPeer ep len p₀).1, hp, rfl,
      creditUpdatedPeer_tx_pending ep len p₀,
      creditUpdatedPeer_credits_nonneg ep len p₀⟩

theorem txStep_max (ep : EpCnt) (a : TxAction) :
    (txStep ep a).max_outstanding_tx = ep.max_outstanding_tx := by
  cases a with
  | post addr r =>
    rcases sendmsg_cases ep addr r with h | ⟨_, _, h⟩ <;>
      simp [txStep, h, rxr_ep_inc_tx_pending]
  | complete addr => simp [txStep, rxr_ep_dec_tx_pending]
  | creditRequest addr len =>
    rcases creditRequest_cases ep addr len with h | ⟨p₀, p1, _, h, _, _⟩ <;>
      simp [txStep, h]
  | grant addr k => simp [txStep]

/-- One admissible step preserves the counter invariant. -/
theorem txInv_step (ep : EpCnt) (a : TxAction)
    (hok : txActionOk ep a = true) (hinv : TxInv ep) : TxInv (txStep ep a) := by
  obtain ⟨hsum, hpeers, hcap⟩ := hinv
  cases a with
  | post addr r =>
    rcases sendmsg_cases ep addr r with h | ⟨hfull, ⟨p, hp⟩, h⟩
    · show TxInv (rxr_pkt_entry_sendmsg ep addr r).1
      rw [h]
      exact ⟨hsum, hpeers, hcap⟩
    · show TxInv (rxr_pkt_entry_sendmsg ep addr r).1
      rw [h]
      refine ⟨?_, ?_, ?_⟩
      · show ep.tx_pending + 1 =
          peersSum (aupdate addr (fun p => { p with tx_pending := p.tx_pending + 1 }) ep.peers)
        rw [peersSum_aupdate addr _ ep.peers p hp]
        show ep.tx_pending + 1 = peersSum ep.peers + (p.tx_pending + 1 - p.tx_pending)
        omega
      · intro q hq
        rcases mem_aupdate _ _ _ q hq with hmem | ⟨v, hv, rfl⟩
        · exact hpeers q hmem
        · have hvq : v = p := by
            rw [hv] at hp
            exact Option.some.inj hp
          subst hvq
          have hq0 := hpeers (addr, v) (alookup_mem addr v ep.peers hv)
          have h1 : 0 ≤ v.tx_pending := hq0.1
          have h2 : 0 ≤ v.tx_credits := hq0.2
          constructor
          · show 0 ≤ v.tx_pending + 1
            omega
          · show 0 ≤ v.tx_credits
            exact h2
      · show ep.tx_pending + 1 ≤ ep.max_outstanding_tx
        omega
  | complete addr =>
    obtain ⟨p, hp, hpos⟩ : ∃ p, alookup addr ep.peers = some p ∧ 0 < p.tx_pending := by
      simp only [txActionOk] at hok
      cases hlk : alookup addr ep.peers with
      | none => rw [hlk] at hok; simp at hok
      | some p =>
        rw [hlk] at hok
        exact ⟨p, rfl, of_decide_eq_true hok⟩
    show TxInv (rxr_ep_dec_tx_pending ep addr)
    refine ⟨?_, ?_, ?_⟩
    · show ep.tx_pending - 1 =
        peersSum (aupdate addr (fun p => { p with tx_pending := p.tx_pending - 1 }) ep.peers)
      rw [peersSum_aupdate addr _ ep.peers p hp]
      show ep.tx_pending - 1 = peersSum ep.peers + (p.tx_pending - 1 - p.tx_pending)
      omega
    · intro q hq
      rcases mem_aupdate _ _ _ q hq with hmem | ⟨v, hv, rfl⟩
      · exact hpeers q hmem
      · have hvq : v = p := by
          rw [hv] at hp
          exact Option.some.inj hp
        subst hvq
        have hq0 := hpeers (addr, v) (alookup_mem addr v ep.peers hv)
        have h2 : 0 ≤ v.tx_credits := hq0.2
        constructor
        · show 0 ≤ v.tx_pending - 1
          omega
        · show 0 ≤ v.tx_credits
          exact h2
    · show ep.tx_pending - 1 ≤ ep.max_outstanding_tx
      omega
  | creditRequest addr len =>
    rcases creditRequest_cases ep addr len with h | ⟨p₀, p1, hp, h, htx, hcred⟩
    · show TxInv (rxr_ep_set_tx_credit_request ep addr len).1
      rw [h]
      exact ⟨hsum, hpeers, hcap⟩
    · show TxInv (rxr_ep_set_tx_credit_request ep addr len).1
      rw [h]
      refine ⟨?_, ?_, ?_⟩
      · show ep.tx_pending = peersSum (aupdate addr (fun _ => p1) ep.peers)
        rw [peersSum_aupdate addr _ ep.peers p₀ hp]
        show ep.tx_pending = peersSum ep.peers + (p1.tx_pending - p₀.tx_pending)
        omega
      · intro q hq
        rcases mem_aupdate _ _ _ q hq with hmem | ⟨v, hv, rfl⟩
        · exact hpeers q hmem
        · have hvq : v = p₀ := by
            rw [hv] at hp
            exact Option.some.inj hp
          subst hvq
          have hq0 := hpeers (addr, v) (alookup_mem addr v ep.peers hv)
          have h1 : 0 ≤ v.tx_pending := hq0.1
          have h2 : 0 ≤ v.tx_credits := hq0.2
          constructor
          · show 0 ≤ p1.tx_pending
            omega
          · show 0 ≤ p1.tx_credits
            exact hcred h2
      · exact hcap
  | grant addr k =>
    show TxInv { ep with peers := (aupdate addr
      (fun p => { p with tx_credits := p.tx_credits + Int.ofNat k }) ep.peers) }
    refine ⟨?_, ?_, hcap⟩
    · show ep.tx_pending = peersSum (aupdate addr
        (fun p => { p with tx_credits := p.tx_credits + Int.ofNat k }) ep.peers)
      cases hlk : alookup addr ep.peers with
      | none =>
        rw [aupdate_eq_of_lookup_none addr _ ep.peers hlk]
        exact hsum
      | some p =>
        rw [peersSum_aupdate addr _ ep.peers p hlk]
        show ep.tx_pending = peersSum ep.peers + (p.tx_pending - p.tx_pending)
        omega
    · intro q hq
      rcases mem_aupdate _ _ _ q hq with hmem | ⟨v, hv, rfl⟩
      · exact hpeers q hmem
      · have hq0 := hpeers (addr, v) (alookup_mem addr v ep.peers hv)
        have h1 : 0 ≤ v.tx_pending := hq0.1
        have h2 : 0 ≤ v.tx_credits := hq0.2
        have hk0 : (0 : Int) ≤ Int.ofNat k := Int.natCast_nonneg _
        constructor
        · show 0 ≤ v.tx_pending
          exact h1
        · show 0 ≤ v.tx_credits + Int.ofNat k
          omega

/-- An admissible run preserves the counter invariant. -/
theorem txInv_run (ep : EpCnt) (tr : List TxAction)
    (hadm : txAdmissible ep tr = true) (hinv : TxInv ep) :
    TxInv (txRun ep tr) := by
  induction tr generalizing ep with
  | nil => exact hinv
  | cons a rest ih =>
    simp only [txAdmissible, Bool.and_eq_true] at hadm
    exact ih (txStep ep a) hadm.2 (txInv_step ep a hadm.1 hinv)

theorem txRun_max (ep : EpCnt) (tr : List TxAction) :
    (txRun ep tr).max_outstanding_tx = ep.max_outstanding_tx := by
  induction tr generalizing ep with
  | nil => rfl
  | cons a rest ih =>
    show (txRun (txStep ep a) rest).max_outstanding_tx = _
    rw [ih, txStep_max]

/-- C4: along any admissible run of posts, completions, credit requests and
credit grants from a state satisfying the counter invariant, every peer
keeps tx_credits nonnegative and an outstanding count between zero and the
outstanding-tx cap; the endpoint counter equals the per-peer sum, is checked
before every post, incremented on each successful device post and
decremented on completion; and posting while the counter sits at the cap is
refused with EAGAIN without sending. -/
theorem c4_tx_counters_invariant (ep : EpCnt) (tr : List TxAction)
    (hadm : txAdmissible ep tr = true) (hinv : TxInv ep) :
    TxInv (txRun ep tr) ∧
    (∀ q ∈ (txRun ep tr).peers,
      0 ≤ q.2.tx_credits ∧ 0 ≤ q.2.tx_pending ∧
      q.2.tx_pending ≤ (txRun ep tr).max_outstanding_tx) ∧
    (∀ (ep1 : EpCnt) (addr : Nat) (r : Int),
      ep1.tx_pending = ep1.max_outstanding_tx →
      rxr_pkt_entry_sendmsg ep1 addr r = (ep1, -FI_EAGAIN)) := by
  obtain ⟨hsum, hpeers, hcap⟩ := txInv_run ep tr hadm hinv
  refine ⟨⟨hsum, hpeers, hcap⟩, ?_, ?_⟩
  · intro q hq
    refine ⟨(hpeers q hq).2, (hpeers q hq).1, ?_⟩
    calc q.2.tx_pending ≤ peersSum (txRun ep tr).peers :=
          le_peersSum _ q hq (fun s hs => (hpeers s hs).1)
      _ = (txRun ep tr).tx_pending := hsum.symm
      _ ≤ (txRun ep tr).max_outstanding_tx := hcap
  · intro ep1 addr r h
    simp [rxr_pkt_entry_sendmsg, h]

/-- Witness for C4: a concrete run (post, credit request, completion, credit
grant) from a one-peer state, and a concrete full endpoint refusing a post
with EAGAIN. -/
theorem c4_tx_counters_invariant_witness :
    TxInv (txRun epC4 trC4) ∧
    rxr_pkt_entry_sendmsg { epC4 with tx_pending := 2 } 0 0 =
      ({ epC4 with tx_pending := 2 }, -FI_EAGAIN) := by
  have h := c4_tx_counters_invariant epC4 trC4 (by decide)
    ⟨by decide, by decide, by decide⟩
  exact ⟨h.1, h.2.2 { epC4 with tx_pending := 2 } 0 0 (by decide)⟩

end EfaSpec
